import Mathlib

/-!
Verification of the krlparser recursive-descent parser (`src/krlparser/parser.py`).

The parser module is embedded shallowly:

* `TokenType` merges the closed token vocabulary `TOKENS`/`KEYWORDS` shared by
  lexer and parser (the `token` module itself is absent from the sources, so the
  vocabulary is modelled from the spec's closed enumeration; the parser compares
  token kinds only for equality, so the concrete literal values are irrelevant).
* Parser state (`_tokens`, `_position`, `_current_token`) becomes `PState`;
  the cached `_current_token` field is exactly `tokens[pos]` when in range and
  `None` past the end, so it is represented by the derived reading `PState.cur`.
* Python exceptions become an `Except PErr` result.  `PErr.parsingError`
  is the `ParsingError` raised by `_error`; `PErr.noneTypeError` is the
  `AttributeError` raised when an attribute of a `None` current token is read
  (`_try_eat` catches only `ParsingError`, so this one always propagates);
  `PErr.outOfFuel` is an artifact of embedding the `while` loops by structural
  recursion on a fuel counter and is proved unreachable for the fuel the
  wrappers supply.
* A caught `ParsingError` (only in `_try_eat`) is always raised by `_eat`
  before any state mutation, so representing an exceptional exit without a
  state component loses nothing observable.
-/

set_option linter.unusedVariables false

/-- The closed vocabulary of token kinds (`TOKENS` and `KEYWORDS` merged;
modelled from the spec: the `token` module is not among the sources).  The
parser only compares kinds for equality. -/
inductive TokenType where
  | NEWLINE
  | LEFT_BRACE
  | RIGHT_BRACE
  | COLON
  | COMMA
  | NAME
  | FILE_ATTRIBUTE
  | END_OF_FILE
  | GLOBAL
  | DEF
  | END
  | DEFFCT
  | ENDFCT
  | DEFDAT
  | ENDDAT
  | PUBLIC
  | IN
  | OUT
  deriving DecidableEq

/-- Rendering of a token kind inside error messages (modelled from the spec:
the literal constant strings live in the absent `token` module; each kind is
rendered by its name). -/
def TokenType.str : TokenType → String
  | .NEWLINE => "NEWLINE"
  | .LEFT_BRACE => "LEFT_BRACE"
  | .RIGHT_BRACE => "RIGHT_BRACE"
  | .COLON => "COLON"
  | .COMMA => "COMMA"
  | .NAME => "NAME"
  | .FILE_ATTRIBUTE => "FILE_ATTRIBUTE"
  | .END_OF_FILE => "END_OF_FILE"
  | .GLOBAL => "GLOBAL"
  | .DEF => "DEF"
  | .END => "END"
  | .DEFFCT => "DEFFCT"
  | .ENDFCT => "ENDFCT"
  | .DEFDAT => "DEFDAT"
  | .ENDDAT => "ENDDAT"
  | .PUBLIC => "PUBLIC"
  | .IN => "IN"
  | .OUT => "OUT"

/-- A lexer token: kind, literal value and 1-based position. -/
structure Token where
  token_type : TokenType
  value : String
  line_number : Nat
  column : Nat
  deriving DecidableEq

/-! AST node model (modelled from the spec: the `ast` module is not among the
sources; fields follow spec section 3, and fields the parser never passes keep
their constructor defaults — §8 fixes the default of `is_global` to `false`
for a modifier-free definition). -/

/-- `FileAttribute` AST node. -/
structure FileAttribute where
  value : String
  deriving DecidableEq

/-- `Parameter.TYPE`, the parameter direction tag. -/
inductive ParamDirection where
  | IN
  | OUT
  deriving DecidableEq

/-- `Parameter` AST node: direction is mandatory. -/
structure Parameter where
  name : String
  parameter_type : ParamDirection
  deriving DecidableEq

/-- `Type` AST node (named `KrlType` because `Type` is reserved in Lean). -/
structure KrlType where
  name : String
  deriving DecidableEq

/-- `FunctionCall` AST node; the parser passes the arguments via the
`parameters` keyword. -/
structure FunctionCall where
  name : String
  parameters : List String
  deriving DecidableEq

/-- `FunctionDefinition` AST node.  The parser constructs it passing `name`,
`parameters`, `body` and (for `DEFFCT` forms) `returns`; `is_global` is never
passed and keeps its default `false`. -/
structure FunctionDefinition where
  name : String
  parameters : List Parameter
  body : List FunctionCall
  returns : Option KrlType := none
  is_global : Bool := false
  deriving DecidableEq

/-- `DataDefinition` AST node.  The parser constructs it passing only `name`;
`is_public` is never passed and keeps its default `false`. -/
structure DataDefinition where
  name : String
  is_public : Bool := false
  deriving DecidableEq

/-- `SourceFile` AST node. -/
structure SourceFile where
  name : String
  file_attributes : List FileAttribute
  statements : List FunctionDefinition
  deriving DecidableEq

/-- `DataFile` AST node. -/
structure DataFile where
  name : String
  file_attributes : List FileAttribute
  statements : List DataDefinition
  deriving DecidableEq

/-- `Module` AST node (named `KrlModule` because `Module` is taken by Mathlib). -/
structure KrlModule where
  name : String
  source_file : SourceFile
  data_file : DataFile
  deriving DecidableEq

/-- A top-level node of the accumulated `_ast` list. -/
inductive TopLevelNode where
  | moduleNode (m : KrlModule)
  | sourceFileNode (f : SourceFile)
  | dataFileNode (f : DataFile)
  deriving DecidableEq

/-- The exceptional outcomes of a parse. -/
inductive PErr where
  | parsingError (line_number : Nat) (column : Nat) (message : String)
  | noneTypeError
  | outOfFuel
  deriving DecidableEq

/-- Parser cursor state: `_tokens` and `_position`. -/
structure PState where
  tokens : List Token
  pos : Nat
  deriving DecidableEq

/-- `_current_token`: `tokens[pos]` while in range, `None` once the position
has run past the last token (`_advance`). -/
def PState.cur (s : PState) : Option Token := s.tokens[s.pos]?

/-- The cursor movement performed by `_advance`. -/
def PState.advance (s : PState) : PState := { s with pos := s.pos + 1 }

/-- The parsing monad: explicit cursor state over exceptional results. -/
abbrev PM (α : Type) := StateT PState (Except PErr) α

/-- `_error`: build a `ParsingError` from the current token's position.
Reading the position of a `None` current token is an `AttributeError`. -/
def perror (s : PState) (message : String) : PErr :=
  match s.cur with
  | some t => .parsingError t.line_number t.column message
  | none => .noneTypeError

/-- Raise a `ParsingError` located at the current token (`self._error(...)`). -/
def perrorM (message : String) : PM α := fun s => .error (perror s message)

/-- `_eat`: consume the current token if its kind matches, otherwise raise a
located expected/found `ParsingError`.  Reading `token.token_type` of a `None`
current token is an `AttributeError`. -/
def eat (token_type : TokenType) : PM Token := fun s =>
  match s.cur with
  | none => .error .noneTypeError
  | some token =>
    if token.token_type = token_type then
      .ok (token, s.advance)
    else
      .error (perror s ("Expected \"" ++ token_type.str ++ "\", found \"" ++
        token.token_type.str ++ "\""))

/-- `_try_eat`: attempt `_eat`, catching exactly `ParsingError` (an
`AttributeError` from a `None` current token propagates).  A caught failure
left the state untouched, since `_eat` raises before mutating. -/
def try_eat (token_type : TokenType) : PM Bool := fun s =>
  match eat token_type s with
  | .ok (_, s') => .ok (true, s')
  | .error (.parsingError _ _ _) => .ok (false, s)
  | .error e => .error e

/-- `_is_current_token`: pure kind test on the current token; reading the
attribute of a `None` current token is an `AttributeError`. -/
def is_current_token (token_type : TokenType) : PM Bool := fun s =>
  match s.cur with
  | none => .error .noneTypeError
  | some t => .ok (t.token_type = token_type, s)

/-- The generator `any(self._is_current_token(token) for token in kinds)`:
a pure membership test on the current token's kind (the generator
short-circuits, but `_is_current_token` is effect-free, so only the
`None`-current-token failure of the first call is observable). -/
def is_current_token_any (kinds : List TokenType) : PM Bool := fun s =>
  match s.cur with
  | none => .error .noneTypeError
  | some t => .ok (kinds.contains t.token_type, s)

/-- Fuel supplied to each embedded `while` loop: one more than the token
count, which strictly exceeds the number of tokens any loop can consume. -/
def loopFuel : PM Nat := fun s => .ok (s.tokens.length + 1, s)

/-- The loop of `_skip_newlines`, by recursion on fuel. -/
def skip_newlines_aux : Nat → PM Unit
  | 0 => fun _ => .error .outOfFuel
  | fuel + 1 => do
    let matched ← try_eat .NEWLINE
    if matched then
      skip_newlines_aux fuel
    else
      pure ()

/-- `_skip_newlines`. -/
def skip_newlines : PM Unit := do
  let fuel ← loopFuel
  skip_newlines_aux fuel

/-- The loop of `_header`, by recursion on fuel. -/
def header_aux : Nat → List FileAttribute → PM (List FileAttribute)
  | 0, _ => fun _ => .error .outOfFuel
  | fuel + 1, attributes => do
    let again ← is_current_token .FILE_ATTRIBUTE
    if again then
      let tok ← eat .FILE_ATTRIBUTE
      let _ ← eat .NEWLINE
      skip_newlines
      header_aux fuel (attributes ++ [{ value := tok.value }])
    else
      pure attributes

/-- `_header`. -/
def header : PM (List FileAttribute) := do
  let fuel ← loopFuel
  header_aux fuel []

/-- `_param_def`: a declared parameter with mandatory direction. -/
def param_def : PM Parameter := do
  let name ← eat .NAME
  let _ ← eat .COLON
  let is_in ← try_eat .IN
  if is_in then
    pure { name := name.value, parameter_type := .IN }
  else
    let is_out ← try_eat .OUT
    if is_out then
      pure { name := name.value, parameter_type := .OUT }
    else
      perrorM ("Expected \"" ++ TokenType.IN.str ++ "\" or \"" ++
        TokenType.OUT.str ++ "\"")

/-- The comma loop of `_params_def`, by recursion on fuel. -/
def params_def_aux : Nat → List Parameter → PM (List Parameter)
  | 0, _ => fun _ => .error .outOfFuel
  | fuel + 1, parameters => do
    let more ← try_eat .COMMA
    if more then
      let p ← param_def
      params_def_aux fuel (parameters ++ [p])
    else
      pure parameters

/-- `_params_def`. -/
def params_def : PM (List Parameter) := do
  let has ← is_current_token .NAME
  if !has then
    pure []
  else
    let p ← param_def
    let fuel ← loopFuel
    params_def_aux fuel [p]

/-- `_param`: a bare-name call argument. -/
def param : PM String := do
  let t ← eat .NAME
  pure t.value

/-- The comma loop of `_params`, by recursion on fuel. -/
def params_aux : Nat → List String → PM (List String)
  | 0, _ => fun _ => .error .outOfFuel
  | fuel + 1, parameters => do
    let more ← try_eat .COMMA
    if more then
      let p ← param
      params_aux fuel (parameters ++ [p])
    else
      pure parameters

/-- `_params`. -/
def params : PM (List String) := do
  let has ← is_current_token .NAME
  if !has then
    pure []
  else
    let p ← param
    let fuel ← loopFuel
    params_aux fuel [p]

/-- `_mod_call`: one call statement. -/
def mod_call : PM FunctionCall := do
  let function ← eat .NAME
  let _ ← eat .LEFT_BRACE
  let parameters ← params
  let _ ← eat .RIGHT_BRACE
  let _ ← eat .NEWLINE
  pure { name := function.value, parameters := parameters }

/-- The loop of `_body`, by recursion on fuel. -/
def body_aux : Nat → List FunctionCall → PM (List FunctionCall)
  | 0, _ => fun _ => .error .outOfFuel
  | fuel + 1, acc => do
    skip_newlines
    let is_call ← is_current_token .NAME
    if is_call then
      let c ← mod_call
      body_aux fuel (acc ++ [c])
    else
      pure acc

/-- `_body`. -/
def body : PM (List FunctionCall) := do
  let fuel ← loopFuel
  body_aux fuel []

/-- `_mod_def`: a procedure definition; the leading `GLOBAL` probe's result is
bound to an unused local exactly as in the source, and the constructed
`FunctionDefinition` receives only `name`, `parameters` and `body`. -/
def mod_def : PM (Option FunctionDefinition) := do
  skip_newlines
  let _global_definition ← try_eat .GLOBAL
  let committed ← is_current_token .DEF
  if !committed then
    pure none
  else
    let _ ← eat .DEF
    let name ← eat .NAME
    let _ ← eat .LEFT_BRACE
    let parameters ← params_def
    let _ ← eat .RIGHT_BRACE
    let _ ← eat .NEWLINE
    skip_newlines
    let bd ← body
    let _ ← eat .END
    skip_newlines
    pure (some { name := name.value, parameters := parameters, body := bd })

/-- `_fnc_def`: a function definition with return type; the leading `GLOBAL`
probe's result is bound to an unused local exactly as in the source, and the
constructed `FunctionDefinition` receives `name`, `parameters`, `body` and
`returns`. -/
def fnc_def : PM (Option FunctionDefinition) := do
  skip_newlines
  let _global_definition ← try_eat .GLOBAL
  let committed ← is_current_token .DEFFCT
  if !committed then
    pure none
  else
    let _ ← eat .DEFFCT
    let return_type ← eat .NAME
    let name ← eat .NAME
    let _ ← eat .LEFT_BRACE
    let parameters ← params_def
    let _ ← eat .RIGHT_BRACE
    let _ ← eat .NEWLINE
    skip_newlines
    let bd ← body
    let _ ← eat .ENDFCT
    skip_newlines
    pure (some { name := name.value, parameters := parameters, body := bd,
                 returns := some { name := return_type.value } })

/-- `_dat_def`: one `DEFDAT` block; the `PUBLIC` probe's result is bound to an
unused local exactly as in the source, and the constructed `DataDefinition`
receives only `name`. -/
def dat_def : PM DataDefinition := do
  skip_newlines
  let _ ← eat .DEFDAT
  let name ← eat .NAME
  let _public_definition ← try_eat .PUBLIC
  let _ ← eat .NEWLINE
  skip_newlines
  let _ ← eat .ENDDAT
  skip_newlines
  pure { name := name.value }

/-- The top-level dispatch loop of `_source_file`, by recursion on fuel: while
the current token is `GLOBAL`, `DEF` or `DEFFCT`, attempt a module definition
then a function definition, appending the non-`None` results in order. -/
def source_file_aux : Nat → List FunctionDefinition → PM (List FunctionDefinition)
  | 0, _ => fun _ => .error .outOfFuel
  | fuel + 1, statements => do
    let again ← is_current_token_any [.GLOBAL, .DEF, .DEFFCT]
    if again then
      let d1 ← mod_def
      let d2 ← fnc_def
      source_file_aux fuel (statements ++ [d1, d2].filterMap id)
    else
      pure statements

/-- `_source_file`. -/
def source_file (name : String) : PM SourceFile := do
  let attributes ← header
  let fuel ← loopFuel
  let statements ← source_file_aux fuel []
  if statements.isEmpty then
    perrorM "No module or function definition found"
  else
    let _ ← eat .END_OF_FILE
    pure { name := name, file_attributes := attributes, statements := statements }

/-- The `DEFDAT` loop of `_data_file`, by recursion on fuel. -/
def data_file_aux : Nat → List DataDefinition → PM (List DataDefinition)
  | 0, _ => fun _ => .error .outOfFuel
  | fuel + 1, statements => do
    let again ← is_current_token .DEFDAT
    if again then
      let d ← dat_def
      data_file_aux fuel (statements ++ [d])
    else
      pure statements

/-- `_data_file`. -/
def data_file (name : String) : PM DataFile := do
  let attributes ← header
  let fuel ← loopFuel
  let statements ← data_file_aux fuel []
  if statements.isEmpty then
    perrorM "No data definition found"
  else
    if statements.length > 1 then
      perrorM "More than one data definition found"
    else
      let _ ← eat .END_OF_FILE
      pure { name := name, file_attributes := attributes, statements := statements }

/-- The outcome of `Lexer(text).generate_tokens()` (modelled from the spec:
the `lexer` module is not among the sources; its contract is to return a
finite token list or raise a located error before the parser runs). -/
abbrev LexResult := Except PErr (List Token)

/-- `add_source_file`: lex, `_initialize` (position 0 on the fresh token
list), run `_source_file`, and only then append the node to `_ast`.  An
exceptional exit carries the untouched accumulated list, since no statement
before the final append mutates `_ast`. -/
def add_source_file (ast : List TopLevelNode) (name : String)
    (lexed : LexResult) : Except (PErr × List TopLevelNode) (List TopLevelNode) :=
  match lexed with
  | .error e => .error (e, ast)
  | .ok source_tokens =>
    match source_file name { tokens := source_tokens, pos := 0 } with
    | .error e => .error (e, ast)
    | .ok (sf, _) => .ok (ast ++ [.sourceFileNode sf])

/-- `add_data_file`: lex, `_initialize`, run `_data_file`, then append. -/
def add_data_file (ast : List TopLevelNode) (name : String)
    (lexed : LexResult) : Except (PErr × List TopLevelNode) (List TopLevelNode) :=
  match lexed with
  | .error e => .error (e, ast)
  | .ok data_tokens =>
    match data_file name { tokens := data_tokens, pos := 0 } with
    | .error e => .error (e, ast)
    | .ok (df, _) => .ok (ast ++ [.dataFileNode df])

/-- `add_module`: lex both inputs first, then parse the source file, then the
data file, and only then append the single `Module` node to `_ast`. -/
def add_module (ast : List TopLevelNode) (module_name : String)
    (sourceLexed : LexResult) (dataLexed : LexResult) :
    Except (PErr × List TopLevelNode) (List TopLevelNode) :=
  match sourceLexed with
  | .error e => .error (e, ast)
  | .ok source_tokens =>
    match dataLexed with
    | .error e => .error (e, ast)
    | .ok data_tokens =>
      match source_file module_name { tokens := source_tokens, pos := 0 } with
      | .error e => .error (e, ast)
      | .ok (sf, _) =>
        match data_file module_name { tokens := data_tokens, pos := 0 } with
        | .error e => .error (e, ast)
        | .ok (df, _) =>
          .ok (ast ++ [.moduleNode { name := module_name, source_file := sf,
                                     data_file := df }])

/-! ### Run lemmas for the state-error monad -/

/-- Running a bind: run the first action, then feed its value and state to the
continuation; an exceptional exit short-circuits. -/
theorem pm_bind_run {α β : Type} (x : PM α) (f : α → PM β) (s : PState) :
    (x >>= f) s = match x s with
      | .ok p => f p.1 p.2
      | .error e => .error e := by
  show Except.bind (x s) _ = _
  cases x s <;> rfl

/-- Running `pure` returns the value and leaves the state unchanged. -/
theorem pm_pure_run {α : Type} (a : α) (s : PState) :
    (pure a : PM α) s = .ok (a, s) := rfl

/-- Inverting a successful bind into its two successful stages. -/
theorem bind_eq_ok {α β : Type} {x : PM α} {f : α → PM β} {s : PState}
    {b : β} {s2 : PState} (h : (x >>= f) s = .ok (b, s2)) :
    ∃ a s1, x s = .ok (a, s1) ∧ f a s1 = .ok (b, s2) := by
  rw [pm_bind_run] at h
  cases hx : x s with
  | error e => rw [hx] at h; exact Except.noConfusion h
  | ok p => rw [hx] at h; exact ⟨p.1, p.2, rfl, h⟩

/-- Inverting an exceptional bind: the failure comes from the first stage or
from the continuation after a successful first stage. -/
theorem bind_eq_err {α β : Type} {x : PM α} {f : α → PM β} {s : PState}
    {e : PErr} (h : (x >>= f) s = .error e) :
    x s = .error e ∨ ∃ a s1, x s = .ok (a, s1) ∧ f a s1 = .error e := by
  rw [pm_bind_run] at h
  cases hx : x s with
  | error e' =>
    rw [hx] at h
    exact Or.inl (congrArg Except.error (Except.error.inj h))
  | ok p => rw [hx] at h; exact Or.inr ⟨p.1, p.2, rfl, h⟩

/-! ### Characterizations of the parser primitives -/

/-- A present current token is in range. -/
theorem cur_some_lt {s : PState} {t : Token} (h : s.cur = some t) :
    s.pos < s.tokens.length :=
  (List.getElem?_eq_some.mp h).1

/-- A present current token is the list entry at the cursor. -/
theorem cur_some_getElem {s : PState} {t : Token} (h : s.cur = some t) :
    ∃ hlt : s.pos < s.tokens.length, s.tokens[s.pos] = t :=
  List.getElem?_eq_some.mp h

/-- `_eat` past the end of the stream is the `AttributeError` on `None`. -/
theorem eat_none {tt : TokenType} {s : PState} (hc : s.cur = none) :
    eat tt s = .error .noneTypeError := by
  unfold eat; simp only [hc]

/-- `_eat` on a matching present token consumes exactly it. -/
theorem eat_match {tt : TokenType} {s : PState} {t : Token}
    (hc : s.cur = some t) (heq : t.token_type = tt) :
    eat tt s = .ok (t, s.advance) := by
  unfold eat; simp only [hc, heq, if_true]

/-- `_eat` on a mismatching present token raises the located mismatch error. -/
theorem eat_mismatch {tt : TokenType} {s : PState} {t : Token}
    (hc : s.cur = some t) (hne : t.token_type ≠ tt) :
    eat tt s = .error (.parsingError t.line_number t.column
      ("Expected \"" ++ tt.str ++ "\", found \"" ++ t.token_type.str ++ "\"")) := by
  unfold eat perror; simp only [hc, hne, if_false]

/-- Successful `_eat`: the current token existed, had the requested kind, and
the only state change is the cursor advancing one position. -/
theorem eat_ok {tt : TokenType} {s : PState} {t : Token} {s' : PState}
    (h : eat tt s = .ok (t, s')) :
    s.cur = some t ∧ t.token_type = tt ∧ s' = s.advance := by
  cases hc : s.cur with
  | none => rw [eat_none hc] at h; exact Except.noConfusion h
  | some tok =>
    by_cases htt : tok.token_type = tt
    · rw [eat_match hc htt] at h
      cases h
      exact ⟨rfl, htt, rfl⟩
    · rw [eat_mismatch hc htt] at h
      exact Except.noConfusion h

/-- Failing `_eat` raises either the located mismatch `ParsingError` or the
`AttributeError` of a `None` current token — never fuel exhaustion. -/
theorem eat_err {tt : TokenType} {s : PState} {e : PErr}
    (h : eat tt s = .error e) :
    e = .noneTypeError ∨ ∃ l c m, e = .parsingError l c m := by
  cases hc : s.cur with
  | none =>
    rw [eat_none hc] at h
    exact Or.inl (Except.error.inj h).symm
  | some tok =>
    by_cases htt : tok.token_type = tt
    · rw [eat_match hc htt] at h; exact Except.noConfusion h
    · rw [eat_mismatch hc htt] at h
      exact Or.inr ⟨_, _, _, (Except.error.inj h).symm⟩

/-- `_try_eat` on a matching present token consumes it and reports a match. -/
theorem try_eat_match {tt : TokenType} {s : PState} {t : Token}
    (hc : s.cur = some t) (heq : t.token_type = tt) :
    try_eat tt s = .ok (true, s.advance) := by
  unfold try_eat
  rw [eat_match hc heq]

/-- `_try_eat` on a mismatching present token reports no match and leaves the
state exactly as it was. -/
theorem try_eat_mismatch {tt : TokenType} {s : PState} {t : Token}
    (hc : s.cur = some t) (hne : t.token_type ≠ tt) :
    try_eat tt s = .ok (false, s) := by
  unfold try_eat
  rw [eat_mismatch hc hne]

/-- `_try_eat` past the end of the stream propagates the `AttributeError`. -/
theorem try_eat_none {tt : TokenType} {s : PState} (hc : s.cur = none) :
    try_eat tt s = .error .noneTypeError := by
  unfold try_eat
  rw [eat_none hc]

/-- Inverting a successful `_try_eat`: a match consumed exactly one token of
the requested kind; a non-match left the state unchanged. -/
theorem try_eat_ok {tt : TokenType} {s : PState} {b : Bool} {s' : PState}
    (h : try_eat tt s = .ok (b, s')) :
    (b = true ∧ ∃ t, s.cur = some t ∧ t.token_type = tt ∧ s' = s.advance) ∨
    (b = false ∧ s' = s) := by
  cases hc : s.cur with
  | none => rw [try_eat_none hc] at h; exact Except.noConfusion h
  | some t =>
    by_cases htt : t.token_type = tt
    · rw [try_eat_match hc htt] at h
      cases h
      exact Or.inl ⟨rfl, t, rfl, htt, rfl⟩
    · rw [try_eat_mismatch hc htt] at h
      cases h
      exact Or.inr ⟨rfl, rfl⟩

/-- Failing `_try_eat` can only be the propagated `AttributeError`, and only
past the end of the stream. -/
theorem try_eat_err {tt : TokenType} {s : PState} {e : PErr}
    (h : try_eat tt s = .error e) : e = .noneTypeError ∧ s.cur = none := by
  cases hc : s.cur with
  | none =>
    rw [try_eat_none hc] at h
    exact ⟨(Except.error.inj h).symm, rfl⟩
  | some t =>
    by_cases htt : t.token_type = tt
    · rw [try_eat_match hc htt] at h; exact Except.noConfusion h
    · rw [try_eat_mismatch hc htt] at h; exact Except.noConfusion h

/-- `_is_current_token` on a present token is the pure kind test. -/
theorem ict_some {tt : TokenType} {s : PState} {t : Token} (hc : s.cur = some t) :
    is_current_token tt s = .ok (decide (t.token_type = tt), s) := by
  unfold is_current_token
  simp only [hc]

/-- `_is_current_token` past the end of the stream is the `AttributeError`. -/
theorem ict_none {tt : TokenType} {s : PState} (hc : s.cur = none) :
    is_current_token tt s = .error .noneTypeError := by
  unfold is_current_token
  simp only [hc]

/-- Inverting `_is_current_token`: it never changes the state. -/
theorem ict_ok {tt : TokenType} {s : PState} {b : Bool} {s' : PState}
    (h : is_current_token tt s = .ok (b, s')) :
    s' = s ∧ ∃ t, s.cur = some t ∧ b = decide (t.token_type = tt) := by
  cases hc : s.cur with
  | none => rw [ict_none hc] at h; exact Except.noConfusion h
  | some t =>
    rw [ict_some hc] at h
    cases h
    exact ⟨rfl, t, rfl, rfl⟩

/-- The membership variant of the current-token test on a present token. -/
theorem ict_any_some {kinds : List TokenType} {s : PState} {t : Token}
    (hc : s.cur = some t) :
    is_current_token_any kinds s = .ok (kinds.contains t.token_type, s) := by
  unfold is_current_token_any
  simp only [hc]

/-- The membership variant past the end of the stream. -/
theorem ict_any_none {kinds : List TokenType} {s : PState} (hc : s.cur = none) :
    is_current_token_any kinds s = .error .noneTypeError := by
  unfold is_current_token_any
  simp only [hc]

/-- Inverting the membership variant: it never changes the state. -/
theorem ict_any_ok {kinds : List TokenType} {s : PState} {b : Bool} {s' : PState}
    (h : is_current_token_any kinds s = .ok (b, s')) :
    s' = s ∧ ∃ t, s.cur = some t ∧ b = kinds.contains t.token_type := by
  cases hc : s.cur with
  | none => rw [ict_any_none hc] at h; exact Except.noConfusion h
  | some t =>
    rw [ict_any_some hc] at h
    cases h
    exact ⟨rfl, t, rfl, rfl⟩

/-! ### Monotonicity: no engine step rewrites the token list or moves the
cursor backwards -/

/-- A monotone engine step. -/
def Mono {α : Type} (m : PM α) : Prop :=
  ∀ s a s', m s = .ok (a, s') → s'.tokens = s.tokens ∧ s.pos ≤ s'.pos

/-- An engine step that never reports fuel exhaustion. -/
def NoFuel {α : Type} (m : PM α) : Prop :=
  ∀ s, m s ≠ .error .outOfFuel

theorem mono_bind {α β : Type} {x : PM α} {f : α → PM β}
    (hx : Mono x) (hf : ∀ a, Mono (f a)) : Mono (x >>= f) := by
  intro s b s2 h
  obtain ⟨a, s1, h1, h2⟩ := bind_eq_ok h
  obtain ⟨t1, p1⟩ := hx s a s1 h1
  obtain ⟨t2, p2⟩ := hf a s1 b s2 h2
  exact ⟨t2.trans t1, p1.trans p2⟩

theorem mono_pure {α : Type} (a : α) : Mono (pure a : PM α) := by
  intro s b s' h
  rw [pm_pure_run] at h
  cases h
  exact ⟨rfl, le_refl _⟩

theorem mono_err {α : Type} (e : PErr) : Mono (fun _ => .error e : PM α) := by
  intro s b s' h
  exact Except.noConfusion h

theorem nofuel_bind {α β : Type} {x : PM α} {f : α → PM β}
    (hx : NoFuel x) (hf : ∀ a, NoFuel (f a)) : NoFuel (x >>= f) := by
  intro s h
  rcases bind_eq_err h with h1 | ⟨a, s1, _, h2⟩
  · exact hx s h1
  · exact hf a s1 h2

theorem nofuel_pure {α : Type} (a : α) : NoFuel (pure a : PM α) := by
  intro s h
  rw [pm_pure_run] at h
  exact Except.noConfusion h

theorem mono_eat (tt : TokenType) : Mono (eat tt) := by
  intro s a s' h
  obtain ⟨_, _, hadv⟩ := eat_ok h
  subst hadv
  exact ⟨rfl, Nat.le_succ _⟩

theorem nofuel_eat (tt : TokenType) : NoFuel (eat tt) := by
  intro s h
  rcases eat_err h with h1 | ⟨l, c, m, h1⟩ <;> exact PErr.noConfusion h1

theorem mono_try_eat (tt : TokenType) : Mono (try_eat tt) := by
  intro s a s' h
  rcases try_eat_ok h with ⟨_, t, _, _, hadv⟩ | ⟨_, hs⟩
  · subst hadv; exact ⟨rfl, Nat.le_succ _⟩
  · subst hs; exact ⟨rfl, le_refl _⟩

theorem nofuel_try_eat (tt : TokenType) : NoFuel (try_eat tt) := by
  intro s h
  exact PErr.noConfusion (try_eat_err h).1

theorem ict_err {tt : TokenType} {s : PState} {e : PErr}
    (h : is_current_token tt s = .error e) : e = .noneTypeError := by
  cases hc : s.cur with
  | none => rw [ict_none hc] at h; exact (Except.error.inj h).symm
  | some t => rw [ict_some hc] at h; exact Except.noConfusion h

theorem ict_any_err {kinds : List TokenType} {s : PState} {e : PErr}
    (h : is_current_token_any kinds s = .error e) : e = .noneTypeError := by
  cases hc : s.cur with
  | none => rw [ict_any_none hc] at h; exact (Except.error.inj h).symm
  | some t => rw [ict_any_some hc] at h; exact Except.noConfusion h

theorem mono_ict (tt : TokenType) : Mono (is_current_token tt) := by
  intro s a s' h
  obtain ⟨hs, _⟩ := ict_ok h
  subst hs
  exact ⟨rfl, le_refl _⟩

theorem nofuel_ict (tt : TokenType) : NoFuel (is_current_token tt) := by
  intro s h
  exact PErr.noConfusion (ict_err h)

theorem mono_ict_any (kinds : List TokenType) : Mono (is_current_token_any kinds) := by
  intro s a s' h
  obtain ⟨hs, _⟩ := ict_any_ok h
  subst hs
  exact ⟨rfl, le_refl _⟩

theorem nofuel_ict_any (kinds : List TokenType) : NoFuel (is_current_token_any kinds) := by
  intro s h
  exact PErr.noConfusion (ict_any_err h)

theorem loopFuel_run (s : PState) : loopFuel s = .ok (s.tokens.length + 1, s) := rfl

theorem mono_loopFuel : Mono loopFuel := by
  intro s a s' h
  rw [loopFuel_run] at h
  cases h
  exact ⟨rfl, le_refl _⟩

theorem nofuel_loopFuel : NoFuel loopFuel := by
  intro s h
  rw [loopFuel_run] at h
  exact Except.noConfusion h

theorem perrorM_run {α : Type} (msg : String) (s : PState) :
    (perrorM msg : PM α) s = .error (perror s msg) := rfl

theorem perror_ne_outOfFuel (s : PState) (msg : String) :
    perror s msg ≠ .outOfFuel := by
  unfold perror
  cases s.cur <;> exact fun h => PErr.noConfusion h

theorem mono_perrorM {α : Type} (msg : String) : Mono (perrorM msg : PM α) := by
  intro s a s' h
  rw [perrorM_run] at h
  exact Except.noConfusion h

theorem nofuel_perrorM {α : Type} (msg : String) : NoFuel (perrorM msg : PM α) := by
  intro s h
  rw [perrorM_run] at h
  exact perror_ne_outOfFuel s msg (Except.error.inj h)

/-! ### Monotonicity of every production -/

theorem mono_skip_newlines_aux (fuel : Nat) : Mono (skip_newlines_aux fuel) := by
  induction fuel with
  | zero => exact mono_err _
  | succ n ih =>
    simp only [skip_newlines_aux]
    refine mono_bind (mono_try_eat _) (fun b => ?_)
    cases b
    · exact mono_pure _
    · exact ih

theorem mono_skip_newlines : Mono skip_newlines :=
  mono_bind mono_loopFuel (fun fuel => mono_skip_newlines_aux fuel)

theorem mono_header_aux (fuel : Nat) : ∀ acc, Mono (header_aux fuel acc) := by
  induction fuel with
  | zero => exact fun acc => mono_err _
  | succ n ih =>
    intro acc
    simp only [header_aux]
    refine mono_bind (mono_ict _) (fun b => ?_)
    cases b
    · exact mono_pure _
    · refine mono_bind (mono_eat _) (fun t => ?_)
      refine mono_bind (mono_eat _) (fun t2 => ?_)
      refine mono_bind mono_skip_newlines (fun u => ?_)
      exact ih _

theorem mono_header : Mono header :=
  mono_bind mono_loopFuel (fun fuel => mono_header_aux fuel [])

theorem mono_param_def : Mono param_def := by
  unfold param_def
  refine mono_bind (mono_eat _) (fun t => ?_)
  refine mono_bind (mono_eat _) (fun t2 => ?_)
  refine mono_bind (mono_try_eat _) (fun b => ?_)
  cases b
  · refine mono_bind (mono_try_eat _) (fun b2 => ?_)
    cases b2
    · exact mono_perrorM _
    · exact mono_pure _
  · exact mono_pure _

theorem mono_params_def_aux (fuel : Nat) : ∀ acc, Mono (params_def_aux fuel acc) := by
  induction fuel with
  | zero => exact fun acc => mono_err _
  | succ n ih =>
    intro acc
    simp only [params_def_aux]
    refine mono_bind (mono_try_eat _) (fun b => ?_)
    cases b
    · exact mono_pure _
    · exact mono_bind mono_param_def (fun p => ih _)

theorem mono_params_def : Mono params_def := by
  unfold params_def
  refine mono_bind (mono_ict _) (fun b => ?_)
  cases b
  · exact mono_pure _
  · exact mono_bind mono_param_def (fun p =>
      mono_bind mono_loopFuel (fun fuel => mono_params_def_aux fuel _))

theorem mono_param : Mono param :=
  mono_bind (mono_eat _) (fun t => mono_pure _)

theorem mono_params_aux (fuel : Nat) : ∀ acc, Mono (params_aux fuel acc) := by
  induction fuel with
  | zero => exact fun acc => mono_err _
  | succ n ih =>
    intro acc
    simp only [params_aux]
    refine mono_bind (mono_try_eat _) (fun b => ?_)
    cases b
    · exact mono_pure _
    · exact mono_bind mono_param (fun p => ih _)

theorem mono_params : Mono params := by
  unfold params
  refine mono_bind (mono_ict _) (fun b => ?_)
  cases b
  · exact mono_pure _
  · exact mono_bind mono_param (fun p =>
      mono_bind mono_loopFuel (fun fuel => mono_params_aux fuel _))

theorem mono_mod_call : Mono mod_call := by
  unfold mod_call
  refine mono_bind (mono_eat _) (fun t => ?_)
  refine mono_bind (mono_eat _) (fun t2 => ?_)
  refine mono_bind mono_params (fun ps => ?_)
  refine mono_bind (mono_eat _) (fun t3 => ?_)
  exact mono_bind (mono_eat _) (fun t4 => mono_pure _)

theorem mono_body_aux (fuel : Nat) : ∀ acc, Mono (body_aux fuel acc) := by
  induction fuel with
  | zero => exact fun acc => mono_err _
  | succ n ih =>
    intro acc
    simp only [body_aux]
    refine mono_bind mono_skip_newlines (fun u => ?_)
    refine mono_bind (mono_ict _) (fun b => ?_)
    cases b
    · exact mono_pure _
    · exact mono_bind mono_mod_call (fun c => ih _)

theorem mono_body : Mono body :=
  mono_bind mono_loopFuel (fun fuel => mono_body_aux fuel [])

theorem mono_mod_def : Mono mod_def := by
  unfold mod_def
  refine mono_bind mono_skip_newlines (fun u => ?_)
  refine mono_bind (mono_try_eat _) (fun g => ?_)
  refine mono_bind (mono_ict _) (fun b => ?_)
  cases b
  · exact mono_pure _
  · refine mono_bind (mono_eat _) (fun t1 => ?_)
    refine mono_bind (mono_eat _) (fun t2 => ?_)
    refine mono_bind (mono_eat _) (fun t3 => ?_)
    refine mono_bind mono_params_def (fun ps => ?_)
    refine mono_bind (mono_eat _) (fun t4 => ?_)
    refine mono_bind (mono_eat _) (fun t5 => ?_)
    refine mono_bind mono_skip_newlines (fun u2 => ?_)
    refine mono_bind mono_body (fun bd => ?_)
    refine mono_bind (mono_eat _) (fun t6 => ?_)
    exact mono_bind mono_skip_newlines (fun u3 => mono_pure _)

theorem mono_fnc_def : Mono fnc_def := by
  unfold fnc_def
  refine mono_bind mono_skip_newlines (fun u => ?_)
  refine mono_bind (mono_try_eat _) (fun g => ?_)
  refine mono_bind (mono_ict _) (fun b => ?_)
  cases b
  · exact mono_pure _
  · refine mono_bind (mono_eat _) (fun t1 => ?_)
    refine mono_bind (mono_eat _) (fun t2 => ?_)
    refine mono_bind (mono_eat _) (fun t3 => ?_)
    refine mono_bind (mono_eat _) (fun t4 => ?_)
    refine mono_bind mono_params_def (fun ps => ?_)
    refine mono_bind (mono_eat _) (fun t5 => ?_)
    refine mono_bind (mono_eat _) (fun t6 => ?_)
    refine mono_bind mono_skip_newlines (fun u2 => ?_)
    refine mono_bind mono_body (fun bd => ?_)
    refine mono_bind (mono_eat _) (fun t7 => ?_)
    exact mono_bind mono_skip_newlines (fun u3 => mono_pure _)

theorem mono_dat_def : Mono dat_def := by
  unfold dat_def
  refine mono_bind mono_skip_newlines (fun u => ?_)
  refine mono_bind (mono_eat _) (fun t1 => ?_)
  refine mono_bind (mono_eat _) (fun t2 => ?_)
  refine mono_bind (mono_try_eat _) (fun p => ?_)
  refine mono_bind (mono_eat _) (fun t3 => ?_)
  refine mono_bind mono_skip_newlines (fun u2 => ?_)
  refine mono_bind (mono_eat _) (fun t4 => ?_)
  exact mono_bind mono_skip_newlines (fun u3 => mono_pure _)

theorem mono_source_file_aux (fuel : Nat) : ∀ acc, Mono (source_file_aux fuel acc) := by
  induction fuel with
  | zero => exact fun acc => mono_err _
  | succ n ih =>
    intro acc
    simp only [source_file_aux]
    refine mono_bind (mono_ict_any _) (fun b => ?_)
    cases b
    · exact mono_pure _
    · exact mono_bind mono_mod_def (fun d1 =>
        mono_bind mono_fnc_def (fun d2 => ih _))

theorem mono_data_file_aux (fuel : Nat) : ∀ acc, Mono (data_file_aux fuel acc) := by
  induction fuel with
  | zero => exact fun acc => mono_err _
  | succ n ih =>
    intro acc
    simp only [data_file_aux]
    refine mono_bind (mono_ict _) (fun b => ?_)
    cases b
    · exact mono_pure _
    · exact mono_bind mono_dat_def (fun d => ih _)

theorem mono_source_file (name : String) : Mono (source_file name) := by
  unfold source_file
  refine mono_bind mono_header (fun attrs => ?_)
  refine mono_bind mono_loopFuel (fun fuel => ?_)
  refine mono_bind (mono_source_file_aux fuel []) (fun stmts => ?_)
  by_cases hs : stmts.isEmpty
  · simp only [hs, if_true]
    exact mono_perrorM _
  · simp only [hs, if_false]
    exact mono_bind (mono_eat _) (fun t => mono_pure _)

theorem mono_data_file (name : String) : Mono (data_file name) := by
  unfold data_file
  refine mono_bind mono_header (fun attrs => ?_)
  refine mono_bind mono_loopFuel (fun fuel => ?_)
  refine mono_bind (mono_data_file_aux fuel []) (fun stmts => ?_)
  by_cases hs : stmts.isEmpty
  · simp only [hs, if_true]
    exact mono_perrorM _
  · simp only [hs, if_false]
    by_cases hl : stmts.length > 1
    · simp only [hl, if_true]
      exact mono_perrorM _
    · simp only [hl, if_false]
      exact mono_bind (mono_eat _) (fun t => mono_pure _)

/-! ### Forward computation helpers and progress facts -/

theorem pm_bind_ok {α β : Type} {x : PM α} {s : PState} {a : α} {s1 : PState}
    (f : α → PM β) (hx : x s = .ok (a, s1)) : (x >>= f) s = f a s1 := by
  rw [pm_bind_run, hx]

theorem pm_bind_err {α β : Type} {x : PM α} {s : PState} {e : PErr}
    (f : α → PM β) (hx : x s = .error e) : (x >>= f) s = .error e := by
  rw [pm_bind_run, hx]

theorem advance_tokens (s : PState) : s.advance.tokens = s.tokens := rfl

theorem advance_pos (s : PState) : s.advance.pos = s.pos + 1 := rfl

/-- `_skip_newlines` on a present non-newline token does nothing. -/
theorem skip_newlines_id {s : PState} {t : Token}
    (hc : s.cur = some t) (hne : t.token_type ≠ .NEWLINE) :
    skip_newlines s = .ok ((), s) := by
  show skip_newlines_aux (s.tokens.length + 1) s = .ok ((), s)
  simp only [skip_newlines_aux]
  rw [pm_bind_ok _ (try_eat_mismatch hc hne)]
  rfl

/-- A successful `_eat` advances the cursor by exactly one. -/
theorem eat_progress {tt : TokenType} {s : PState} {t : Token} {s' : PState}
    (h : eat tt s = .ok (t, s')) : s'.pos = s.pos + 1 :=
  (eat_ok h).2.2 ▸ rfl

/-- A matching `_try_eat` advances the cursor by exactly one. -/
theorem try_eat_true_progress {tt : TokenType} {s : PState} {s' : PState}
    (h : try_eat tt s = .ok (true, s')) : s'.pos = s.pos + 1 := by
  rcases try_eat_ok h with ⟨_, t, _, _, hadv⟩ | ⟨hb, _⟩
  · exact hadv ▸ rfl
  · exact Bool.noConfusion hb

/-- A successful `_mod_call` consumes at least one token. -/
theorem mod_call_progress {s : PState} {c : FunctionCall} {s' : PState}
    (h : mod_call s = .ok (c, s')) : s.pos < s'.pos := by
  unfold mod_call at h
  obtain ⟨t1, s1, h1, h⟩ := bind_eq_ok h
  have e1 := eat_progress h1
  obtain ⟨t2, s2, h2, h⟩ := bind_eq_ok h
  have m2 := (mono_eat _) _ _ _ h2
  obtain ⟨ps, s3, h3, h⟩ := bind_eq_ok h
  have m3 := mono_params _ _ _ h3
  obtain ⟨t4, s4, h4, h⟩ := bind_eq_ok h
  have m4 := (mono_eat _) _ _ _ h4
  obtain ⟨t5, s5, h5, h⟩ := bind_eq_ok h
  have m5 := (mono_eat _) _ _ _ h5
  rw [pm_pure_run] at h
  cases h
  omega

/-- A successful `_dat_def` consumes at least one token. -/
theorem dat_def_progress {s : PState} {d : DataDefinition} {s' : PState}
    (h : dat_def s = .ok (d, s')) : s.pos < s'.pos := by
  unfold dat_def at h
  obtain ⟨u, s1, h1, h⟩ := bind_eq_ok h
  have m1 := mono_skip_newlines _ _ _ h1
  obtain ⟨t1, s2, h2, h⟩ := bind_eq_ok h
  have e2 := eat_progress h2
  obtain ⟨t2, s3, h3, h⟩ := bind_eq_ok h
  have m3 := (mono_eat _) _ _ _ h3
  obtain ⟨p, s4, h4, h⟩ := bind_eq_ok h
  have m4 := mono_try_eat _ _ _ _ h4
  obtain ⟨t3, s5, h5, h⟩ := bind_eq_ok h
  have m5 := (mono_eat _) _ _ _ h5
  obtain ⟨u2, s6, h6, h⟩ := bind_eq_ok h
  have m6 := mono_skip_newlines _ _ _ h6
  obtain ⟨t4, s7, h7, h⟩ := bind_eq_ok h
  have m7 := (mono_eat _) _ _ _ h7
  obtain ⟨u3, s8, h8, h⟩ := bind_eq_ok h
  have m8 := mono_skip_newlines _ _ _ h8
  rw [pm_pure_run] at h
  cases h
  omega

/-- `_mod_def` on a present token that is neither a newline nor `GLOBAL` nor
`DEF` abandons immediately without touching the state. -/
theorem mod_def_skip {s : PState} {t : Token} (hc : s.cur = some t)
    (h1 : t.token_type ≠ .NEWLINE) (h2 : t.token_type ≠ .GLOBAL)
    (h3 : t.token_type ≠ .DEF) : mod_def s = .ok (none, s) := by
  unfold mod_def
  rw [pm_bind_ok _ (skip_newlines_id hc h1)]
  rw [pm_bind_ok _ (try_eat_mismatch hc h2)]
  rw [pm_bind_ok _ (ict_some hc)]
  simp only [decide_eq_false h3]
  rfl

/-- `_fnc_def` on a present token that is neither a newline nor `GLOBAL` nor
`DEFFCT` abandons immediately without touching the state. -/
theorem fnc_def_skip {s : PState} {t : Token} (hc : s.cur = some t)
    (h1 : t.token_type ≠ .NEWLINE) (h2 : t.token_type ≠ .GLOBAL)
    (h3 : t.token_type ≠ .DEFFCT) : fnc_def s = .ok (none, s) := by
  unfold fnc_def
  rw [pm_bind_ok _ (skip_newlines_id hc h1)]
  rw [pm_bind_ok _ (try_eat_mismatch hc h2)]
  rw [pm_bind_ok _ (ict_some hc)]
  simp only [decide_eq_false h3]
  rfl

/-- A successful `_mod_def` started on a `GLOBAL` or `DEF` token consumes at
least one token. -/
theorem mod_def_progress {s : PState} {t : Token} {r : Option FunctionDefinition}
    {s' : PState} (hc : s.cur = some t)
    (hg : t.token_type = .GLOBAL ∨ t.token_type = .DEF)
    (h : mod_def s = .ok (r, s')) : s.pos < s'.pos := by
  unfold mod_def at h
  have hnl : t.token_type ≠ .NEWLINE := by rcases hg with h' | h' <;> rw [h'] <;> decide
  rw [pm_bind_ok _ (skip_newlines_id hc hnl)] at h
  rcases hg with hgl | hdf
  · rw [pm_bind_ok _ (try_eat_match hc hgl)] at h
    obtain ⟨b, s2, h2, h⟩ := bind_eq_ok h
    obtain ⟨hs2, _⟩ := ict_ok h2
    subst hs2
    cases b with
    | false =>
      have h' : (pure none : PM (Option FunctionDefinition)) s.advance = .ok (r, s') := h
      rw [pm_pure_run] at h'
      cases h'
      rw [advance_pos]
      omega
    | true =>
      obtain ⟨t1, s3, h3, h⟩ := bind_eq_ok h
      have m3 := (mono_eat _) _ _ _ h3
      obtain ⟨t2, s4, h4, h⟩ := bind_eq_ok h
      have m4 := (mono_eat _) _ _ _ h4
      obtain ⟨t3, s5, h5, h⟩ := bind_eq_ok h
      have m5 := (mono_eat _) _ _ _ h5
      obtain ⟨ps, s6, h6, h⟩ := bind_eq_ok h
      have m6 := mono_params_def _ _ _ h6
      obtain ⟨t4, s7, h7, h⟩ := bind_eq_ok h
      have m7 := (mono_eat _) _ _ _ h7
      obtain ⟨t5, s8, h8, h⟩ := bind_eq_ok h
      have m8 := (mono_eat _) _ _ _ h8
      obtain ⟨u2, s9, h9, h⟩ := bind_eq_ok h
      have m9 := mono_skip_newlines _ _ _ h9
      obtain ⟨bd, s10, h10, h⟩ := bind_eq_ok h
      have m10 := mono_body _ _ _ h10
      obtain ⟨t6, s11, h11, h⟩ := bind_eq_ok h
      have m11 := (mono_eat _) _ _ _ h11
      obtain ⟨u3, s12, h12, h⟩ := bind_eq_ok h
      have m12 := mono_skip_newlines _ _ _ h12
      rw [pm_pure_run] at h
      cases h
      have hadv : s.advance.pos = s.pos + 1 := advance_pos s
      omega
  · rw [pm_bind_ok _ (try_eat_mismatch hc (by rw [hdf]; decide))] at h
    rw [pm_bind_ok _ (ict_some hc)] at h
    rw [decide_eq_true hdf] at h
    obtain ⟨t1, s3, h3, h⟩ := bind_eq_ok h
    have e3 := eat_progress h3
    obtain ⟨t2, s4, h4, h⟩ := bind_eq_ok h
    have m4 := (mono_eat _) _ _ _ h4
    obtain ⟨t3, s5, h5, h⟩ := bind_eq_ok h
    have m5 := (mono_eat _) _ _ _ h5
    obtain ⟨ps, s6, h6, h⟩ := bind_eq_ok h
    have m6 := mono_params_def _ _ _ h6
    obtain ⟨t4, s7, h7, h⟩ := bind_eq_ok h
    have m7 := (mono_eat _) _ _ _ h7
    obtain ⟨t5, s8, h8, h⟩ := bind_eq_ok h
    have m8 := (mono_eat _) _ _ _ h8
    obtain ⟨u2, s9, h9, h⟩ := bind_eq_ok h
    have m9 := mono_skip_newlines _ _ _ h9
    obtain ⟨bd, s10, h10, h⟩ := bind_eq_ok h
    have m10 := mono_body _ _ _ h10
    obtain ⟨t6, s11, h11, h⟩ := bind_eq_ok h
    have m11 := (mono_eat _) _ _ _ h11
    obtain ⟨u3, s12, h12, h⟩ := bind_eq_ok h
    have m12 := mono_skip_newlines _ _ _ h12
    rw [pm_pure_run] at h
    cases h
    omega

/-- A successful `_fnc_def` started on a `DEFFCT` token consumes at least one
token. -/
theorem fnc_def_progress {s : PState} {t : Token} {r : Option FunctionDefinition}
    {s' : PState} (hc : s.cur = some t) (hdf : t.token_type = .DEFFCT)
    (h : fnc_def s = .ok (r, s')) : s.pos < s'.pos := by
  unfold fnc_def at h
  rw [pm_bind_ok _ (skip_newlines_id hc (by rw [hdf]; decide))] at h
  rw [pm_bind_ok _ (try_eat_mismatch hc (by rw [hdf]; decide))] at h
  rw [pm_bind_ok _ (ict_some hc)] at h
  rw [decide_eq_true hdf] at h
  obtain ⟨t1, s3, h3, h⟩ := bind_eq_ok h
  have e3 := eat_progress h3
  obtain ⟨tr, s4, h4, h⟩ := bind_eq_ok h
  have m4 := (mono_eat _) _ _ _ h4
  obtain ⟨t2, s5, h5, h⟩ := bind_eq_ok h
  have m5 := (mono_eat _) _ _ _ h5
  obtain ⟨t3, s6, h6, h⟩ := bind_eq_ok h
  have m6 := (mono_eat _) _ _ _ h6
  obtain ⟨ps, s7, h7, h⟩ := bind_eq_ok h
  have m7 := mono_params_def _ _ _ h7
  obtain ⟨t4, s8, h8, h⟩ := bind_eq_ok h
  have m8 := (mono_eat _) _ _ _ h8
  obtain ⟨t5, s9, h9, h⟩ := bind_eq_ok h
  have m9 := (mono_eat _) _ _ _ h9
  obtain ⟨u2, s10, h10, h⟩ := bind_eq_ok h
  have m10 := mono_skip_newlines _ _ _ h10
  obtain ⟨bd, s11, h11, h⟩ := bind_eq_ok h
  have m11 := mono_body _ _ _ h11
  obtain ⟨t6, s12, h12, h⟩ := bind_eq_ok h
  have m12 := (mono_eat _) _ _ _ h12
  obtain ⟨u3, s13, h13, h⟩ := bind_eq_ok h
  have m13 := mono_skip_newlines _ _ _ h13
  rw [pm_pure_run] at h
  cases h
  omega

/-! ### No fuel exhaustion: every loop's fuel strictly exceeds the tokens it
can consume -/

theorem nofuel_loopFuel_aux {α : Type} {A : Nat → PM α}
    (hA : ∀ fuel s, s.tokens.length - s.pos < fuel → A fuel s ≠ .error .outOfFuel) :
    NoFuel (loopFuel >>= fun fuel => A fuel) := by
  intro s h
  rcases bind_eq_err h with h1 | ⟨fuel, s1, hok, h2⟩
  · exact nofuel_loopFuel s h1
  · rw [loopFuel_run] at hok
    cases hok
    exact hA _ s (by omega) h2

theorem nofuel_skip_newlines_aux :
    ∀ fuel s, s.tokens.length - s.pos < fuel →
      skip_newlines_aux fuel s ≠ .error .outOfFuel := by
  intro fuel
  induction fuel with
  | zero => intro s hb; exact absurd hb (Nat.not_lt_zero _)
  | succ n ih =>
    intro s hb h
    simp only [skip_newlines_aux] at h
    rcases bind_eq_err h with h1 | ⟨b, s1, hok, h2⟩
    · exact nofuel_try_eat _ _ h1
    · rcases try_eat_ok hok with ⟨hb1, t, hct, htt, hadv⟩ | ⟨hb1, hs⟩
      · subst hb1; subst hadv
        have hlt := cur_some_lt hct
        refine ih _ ?_ h2
        rw [advance_tokens, advance_pos]
        omega
      · subst hb1; subst hs
        exact nofuel_pure _ _ h2

theorem nofuel_skip_newlines : NoFuel skip_newlines :=
  nofuel_loopFuel_aux nofuel_skip_newlines_aux

theorem nofuel_header_aux :
    ∀ fuel acc s, s.tokens.length - s.pos < fuel →
      header_aux fuel acc s ≠ .error .outOfFuel := by
  intro fuel
  induction fuel with
  | zero => intro acc s hb; exact absurd hb (Nat.not_lt_zero _)
  | succ n ih =>
    intro acc s hb h
    simp only [header_aux] at h
    rcases bind_eq_err h with h1 | ⟨b, s1, hok, h2⟩
    · exact nofuel_ict _ _ h1
    · obtain ⟨hs1, _⟩ := ict_ok hok
      subst hs1
      cases b with
      | false => exact nofuel_pure _ _ h2
      | true =>
        rcases bind_eq_err h2 with h3 | ⟨t1, s2, hok2, h4⟩
        · exact nofuel_eat _ _ h3
        · obtain ⟨hct, _, hadv⟩ := eat_ok hok2
          subst hadv
          have hlt := cur_some_lt hct
          rcases bind_eq_err h4 with h5 | ⟨t2, s3, hok3, h6⟩
          · exact nofuel_eat _ _ h5
          · have m3 := (mono_eat _) _ _ _ hok3
            rcases bind_eq_err h6 with h7 | ⟨u, s4, hok4, h8⟩
            · exact nofuel_skip_newlines _ h7
            · have m4 := mono_skip_newlines _ _ _ hok4
              have hl3 := congrArg List.length m3.1
              have hl4 := congrArg List.length m4.1
              have hp3 := m3.2
              have hp4 := m4.2
              rw [advance_tokens] at hl3
              rw [advance_pos] at hp3
              refine ih _ _ ?_ h8
              omega

theorem nofuel_header : NoFuel header :=
  nofuel_loopFuel_aux (fun fuel s hb => nofuel_header_aux fuel [] s hb)

theorem nofuel_param_def : NoFuel param_def := by
  unfold param_def
  refine nofuel_bind (nofuel_eat _) (fun t => ?_)
  refine nofuel_bind (nofuel_eat _) (fun t2 => ?_)
  refine nofuel_bind (nofuel_try_eat _) (fun b => ?_)
  cases b
  · refine nofuel_bind (nofuel_try_eat _) (fun b2 => ?_)
    cases b2
    · exact nofuel_perrorM _
    · exact nofuel_pure _
  · exact nofuel_pure _

theorem nofuel_params_def_aux :
    ∀ fuel acc s, s.tokens.length - s.pos < fuel →
      params_def_aux fuel acc s ≠ .error .outOfFuel := by
  intro fuel
  induction fuel with
  | zero => intro acc s hb; exact absurd hb (Nat.not_lt_zero _)
  | succ n ih =>
    intro acc s hb h
    simp only [params_def_aux] at h
    rcases bind_eq_err h with h1 | ⟨b, s1, hok, h2⟩
    · exact nofuel_try_eat _ _ h1
    · rcases try_eat_ok hok with ⟨hb1, t, hct, htt, hadv⟩ | ⟨hb1, hs⟩
      · subst hb1; subst hadv
        have hlt := cur_some_lt hct
        rcases bind_eq_err h2 with h3 | ⟨p, s2, hok2, h4⟩
        · exact nofuel_param_def _ h3
        · have m2 := mono_param_def _ _ _ hok2
          have hl2 : s2.tokens.length = s.tokens.length := by
            rw [congrArg List.length m2.1, advance_tokens]
          have hp2 := m2.2
          rw [advance_pos] at hp2
          refine ih _ _ ?_ h4
          omega
      · subst hb1; subst hs
        exact nofuel_pure _ _ h2

theorem nofuel_params_def : NoFuel params_def := by
  unfold params_def
  refine nofuel_bind (nofuel_ict _) (fun b => ?_)
  cases b
  · exact nofuel_pure _
  · exact nofuel_bind nofuel_param_def (fun p =>
      nofuel_loopFuel_aux (fun fuel s hb => nofuel_params_def_aux fuel [p] s hb))

theorem nofuel_param : NoFuel param :=
  nofuel_bind (nofuel_eat _) (fun t => nofuel_pure _)

theorem nofuel_params_aux :
    ∀ fuel acc s, s.tokens.length - s.pos < fuel →
      params_aux fuel acc s ≠ .error .outOfFuel := by
  intro fuel
  induction fuel with
  | zero => intro acc s hb; exact absurd hb (Nat.not_lt_zero _)
  | succ n ih =>
    intro acc s hb h
    simp only [params_aux] at h
    rcases bind_eq_err h with h1 | ⟨b, s1, hok, h2⟩
    · exact nofuel_try_eat _ _ h1
    · rcases try_eat_ok hok with ⟨hb1, t, hct, htt, hadv⟩ | ⟨hb1, hs⟩
      · subst hb1; subst hadv
        have hlt := cur_some_lt hct
        rcases bind_eq_err h2 with h3 | ⟨p, s2, hok2, h4⟩
        · exact nofuel_param _ h3
        · have m2 := mono_param _ _ _ hok2
          have hl2 : s2.tokens.length = s.tokens.length := by
            rw [congrArg List.length m2.1, advance_tokens]
          have hp2 := m2.2
          rw [advance_pos] at hp2
          refine ih _ _ ?_ h4
          omega
      · subst hb1; subst hs
        exact nofuel_pure _ _ h2

theorem nofuel_params : NoFuel params := by
  unfold params
  refine nofuel_bind (nofuel_ict _) (fun b => ?_)
  cases b
  · exact nofuel_pure _
  · exact nofuel_bind nofuel_param (fun p =>
      nofuel_loopFuel_aux (fun fuel s hb => nofuel_params_aux fuel [p] s hb))

theorem nofuel_mod_call : NoFuel mod_call := by
  unfold mod_call
  refine nofuel_bind (nofuel_eat _) (fun t => ?_)
  refine nofuel_bind (nofuel_eat _) (fun t2 => ?_)
  refine nofuel_bind nofuel_params (fun ps => ?_)
  refine nofuel_bind (nofuel_eat _) (fun t3 => ?_)
  exact nofuel_bind (nofuel_eat _) (fun t4 => nofuel_pure _)

theorem nofuel_body_aux :
    ∀ fuel acc s, s.tokens.length - s.pos < fuel →
      body_aux fuel acc s ≠ .error .outOfFuel := by
  intro fuel
  induction fuel with
  | zero => intro acc s hb; exact absurd hb (Nat.not_lt_zero _)
  | succ n ih =>
    intro acc s hb h
    simp only [body_aux] at h
    rcases bind_eq_err h with h1 | ⟨u, s1, hok, h2⟩
    · exact nofuel_skip_newlines _ h1
    · have m1 := mono_skip_newlines _ _ _ hok
      rcases bind_eq_err h2 with h3 | ⟨b, s2, hok2, h4⟩
      · exact nofuel_ict _ _ h3
      · obtain ⟨hs2, t, hct, _⟩ := ict_ok hok2
        subst hs2
        cases b with
        | false => exact nofuel_pure _ _ h4
        | true =>
          have hlt := cur_some_lt hct
          rcases bind_eq_err h4 with h5 | ⟨c, s3, hok3, h6⟩
          · exact nofuel_mod_call _ h5
          · have p3 := mod_call_progress hok3
            have m3 := mono_mod_call _ _ _ hok3
            have hl1 := congrArg List.length m1.1
            have hl3 := congrArg List.length m3.1
            have hp1 := m1.2
            refine ih _ _ ?_ h6
            omega

theorem nofuel_body : NoFuel body :=
  nofuel_loopFuel_aux (fun fuel s hb => nofuel_body_aux fuel [] s hb)

theorem nofuel_mod_def : NoFuel mod_def := by
  unfold mod_def
  refine nofuel_bind nofuel_skip_newlines (fun u => ?_)
  refine nofuel_bind (nofuel_try_eat _) (fun g => ?_)
  refine nofuel_bind (nofuel_ict _) (fun b => ?_)
  cases b
  · exact nofuel_pure _
  · refine nofuel_bind (nofuel_eat _) (fun t1 => ?_)
    refine nofuel_bind (nofuel_eat _) (fun t2 => ?_)
    refine nofuel_bind (nofuel_eat _) (fun t3 => ?_)
    refine nofuel_bind nofuel_params_def (fun ps => ?_)
    refine nofuel_bind (nofuel_eat _) (fun t4 => ?_)
    refine nofuel_bind (nofuel_eat _) (fun t5 => ?_)
    refine nofuel_bind nofuel_skip_newlines (fun u2 => ?_)
    refine nofuel_bind nofuel_body (fun bd => ?_)
    refine nofuel_bind (nofuel_eat _) (fun t6 => ?_)
    exact nofuel_bind nofuel_skip_newlines (fun u3 => nofuel_pure _)

theorem nofuel_fnc_def : NoFuel fnc_def := by
  unfold fnc_def
  refine nofuel_bind nofuel_skip_newlines (fun u => ?_)
  refine nofuel_bind (nofuel_try_eat _) (fun g => ?_)
  refine nofuel_bind (nofuel_ict _) (fun b => ?_)
  cases b
  · exact nofuel_pure _
  · refine nofuel_bind (nofuel_eat _) (fun t1 => ?_)
    refine nofuel_bind (nofuel_eat _) (fun t2 => ?_)
    refine nofuel_bind (nofuel_eat _) (fun t3 => ?_)
    refine nofuel_bind (nofuel_eat _) (fun t4 => ?_)
    refine nofuel_bind nofuel_params_def (fun ps => ?_)
    refine nofuel_bind (nofuel_eat _) (fun t5 => ?_)
    refine nofuel_bind (nofuel_eat _) (fun t6 => ?_)
    refine nofuel_bind nofuel_skip_newlines (fun u2 => ?_)
    refine nofuel_bind nofuel_body (fun bd => ?_)
    refine nofuel_bind (nofuel_eat _) (fun t7 => ?_)
    exact nofuel_bind nofuel_skip_newlines (fun u3 => nofuel_pure _)

theorem nofuel_dat_def : NoFuel dat_def := by
  unfold dat_def
  refine nofuel_bind nofuel_skip_newlines (fun u => ?_)
  refine nofuel_bind (nofuel_eat _) (fun t1 => ?_)
  refine nofuel_bind (nofuel_eat _) (fun t2 => ?_)
  refine nofuel_bind (nofuel_try_eat _) (fun p => ?_)
  refine nofuel_bind (nofuel_eat _) (fun t3 => ?_)
  refine nofuel_bind nofuel_skip_newlines (fun u2 => ?_)
  refine nofuel_bind (nofuel_eat _) (fun t4 => ?_)
  exact nofuel_bind nofuel_skip_newlines (fun u3 => nofuel_pure _)

theorem nofuel_source_file_aux :
    ∀ fuel acc s, s.tokens.length - s.pos < fuel →
      source_file_aux fuel acc s ≠ .error .outOfFuel := by
  intro fuel
  induction fuel with
  | zero => intro acc s hb; exact absurd hb (Nat.not_lt_zero _)
  | succ n ih =>
    intro acc s hb h
    simp only [source_file_aux] at h
    rcases bind_eq_err h with h1 | ⟨b, s1, hok, h2⟩
    · exact nofuel_ict_any _ _ h1
    · obtain ⟨hs1, t, hct, hbval⟩ := ict_any_ok hok
      subst hs1
      cases b with
      | false => exact nofuel_pure _ _ h2
      | true =>
        have hlt := cur_some_lt hct
        have hkinds : t.token_type = .GLOBAL ∨ t.token_type = .DEF ∨
            t.token_type = .DEFFCT := by
          revert hbval
          cases t.token_type <;> decide
        rcases bind_eq_err h2 with h3 | ⟨d1, s2, hok2, h4⟩
        · exact nofuel_mod_def _ h3
        · have m2 := mono_mod_def _ _ _ hok2
          rcases bind_eq_err h4 with h5 | ⟨d2, s3, hok3, h6⟩
          · exact nofuel_fnc_def _ h5
          · have m3 := mono_fnc_def _ _ _ hok3
            have hl2 := congrArg List.length m2.1
            have hl3 := congrArg List.length m3.1
            have hp3 := m3.2
            rcases hkinds with hk | hk | hk
            · have hp := mod_def_progress hct (Or.inl hk) hok2
              refine ih _ _ ?_ h6
              omega
            · have hp := mod_def_progress hct (Or.inr hk) hok2
              refine ih _ _ ?_ h6
              omega
            · have hskip := mod_def_skip hct (by rw [hk]; decide)
                (by rw [hk]; decide) (by rw [hk]; decide)
              rw [hok2] at hskip
              cases hskip
              have hp := fnc_def_progress hct hk hok3
              refine ih _ _ ?_ h6
              omega

theorem nofuel_data_file_aux :
    ∀ fuel acc s, s.tokens.length - s.pos < fuel →
      data_file_aux fuel acc s ≠ .error .outOfFuel := by
  intro fuel
  induction fuel with
  | zero => intro acc s hb; exact absurd hb (Nat.not_lt_zero _)
  | succ n ih =>
    intro acc s hb h
    simp only [data_file_aux] at h
    rcases bind_eq_err h with h1 | ⟨b, s1, hok, h2⟩
    · exact nofuel_ict _ _ h1
    · obtain ⟨hs1, t, hct, _⟩ := ict_ok hok
      subst hs1
      cases b with
      | false => exact nofuel_pure _ _ h2
      | true =>
        have hlt := cur_some_lt hct
        rcases bind_eq_err h2 with h3 | ⟨d, s2, hok2, h4⟩
        · exact nofuel_dat_def _ h3
        · have p2 := dat_def_progress hok2
          have m2 := mono_dat_def _ _ _ hok2
          have hl2 := congrArg List.length m2.1
          refine ih _ _ ?_ h4
          omega

theorem nofuel_source_file (name : String) : NoFuel (source_file name) := by
  unfold source_file
  refine nofuel_bind nofuel_header (fun attrs => ?_)
  refine nofuel_loopFuel_aux ?_
  intro fuel s hbnd h
  rcases bind_eq_err h with h1 | ⟨stmts, s1, hok, h2⟩
  · exact nofuel_source_file_aux fuel [] s hbnd h1
  · by_cases he : stmts.isEmpty
    · simp only [he, if_true] at h2
      exact nofuel_perrorM _ _ h2
    · simp only [he, if_false] at h2
      exact nofuel_bind (nofuel_eat _) (fun t => nofuel_pure _) _ h2

theorem nofuel_data_file (name : String) : NoFuel (data_file name) := by
  unfold data_file
  refine nofuel_bind nofuel_header (fun attrs => ?_)
  refine nofuel_loopFuel_aux ?_
  intro fuel s hbnd h
  rcases bind_eq_err h with h1 | ⟨stmts, s1, hok, h2⟩
  · exact nofuel_data_file_aux fuel [] s hbnd h1
  · by_cases he : stmts.isEmpty
    · simp only [he, if_true] at h2
      exact nofuel_perrorM _ _ h2
    · simp only [he, if_false] at h2
      by_cases hl : stmts.length > 1
      · simp only [hl, if_true] at h2
        exact nofuel_perrorM _ _ h2
      · simp only [hl, if_false] at h2
        exact nofuel_bind (nofuel_eat _) (fun t => nofuel_pure _) _ h2

/-! ### Safety: with a final, unique end-of-stream sentinel the parser never
reads an attribute of a `None` current token -/

/-- The lexer contract: the token list is non-empty and its last element is
its only end-of-stream token. -/
def EOFLast (ts : List Token) : Prop :=
  ts ≠ [] ∧ ∀ i (h : i < ts.length),
    ((ts.get ⟨i, h⟩).token_type = .END_OF_FILE ↔ i = ts.length - 1)

/-- The error is a located `ParsingError`. -/
def IsPE (e : PErr) : Prop := ∃ l c m, e = .parsingError l c m

/-- A safe engine step: started on a present token of an EOF-terminated
stream, it finishes on a present token and can only fail with a located
`ParsingError`. -/
def Safe {α : Type} (m : PM α) : Prop :=
  ∀ s, EOFLast s.tokens → s.pos < s.tokens.length →
    (∀ a s', m s = .ok (a, s') →
      s'.tokens = s.tokens ∧ s'.pos < s.tokens.length) ∧
    (∀ e, m s = .error e → IsPE e)

/-- An in-range cursor sees the list entry at the cursor. -/
theorem cur_of_lt {s : PState} (hp : s.pos < s.tokens.length) :
    s.cur = some (s.tokens.get ⟨s.pos, hp⟩) := by
  unfold PState.cur
  exact List.getElem?_eq_getElem hp

/-- Consuming a non-sentinel token of an EOF-terminated stream leaves the
cursor strictly inside the stream. -/
theorem eof_last_advance_lt {s : PState} {t : Token} (hE : EOFLast s.tokens)
    (hc : s.cur = some t) (hne : t.token_type ≠ .END_OF_FILE) :
    s.pos + 1 < s.tokens.length := by
  obtain ⟨hlt, hget⟩ := cur_some_getElem hc
  have hiff := hE.2 s.pos hlt
  have hnp : s.pos ≠ s.tokens.length - 1 := by
    intro hh
    exact hne (by rw [← hget]; exact hiff.mpr hh)
  omega

/-- Any failure of `_eat` on a present token is a located `ParsingError`. -/
theorem eat_err_of_lt {tt : TokenType} {s : PState} {e : PErr}
    (hp : s.pos < s.tokens.length) (h : eat tt s = .error e) : IsPE e := by
  have hc := cur_of_lt hp
  by_cases htt : (s.tokens.get ⟨s.pos, hp⟩).token_type = tt
  · rw [eat_match hc htt] at h
    exact Except.noConfusion h
  · rw [eat_mismatch hc htt] at h
    exact ⟨_, _, _, (Except.error.inj h).symm⟩

theorem safe_bind {α β : Type} {x : PM α} {f : α → PM β}
    (hx : Safe x) (hf : ∀ a, Safe (f a)) : Safe (x >>= f) := by
  intro s hE hp
  constructor
  · intro b s2 h
    obtain ⟨a, s1, h1, h2⟩ := bind_eq_ok h
    obtain ⟨ht1, hp1⟩ := (hx s hE hp).1 a s1 h1
    have hE1 : EOFLast s1.tokens := by rw [ht1]; exact hE
    have hp1' : s1.pos < s1.tokens.length := by rw [ht1]; exact hp1
    obtain ⟨ht2, hp2⟩ := (hf a s1 hE1 hp1').1 b s2 h2
    exact ⟨ht2.trans ht1, by rw [← ht1]; exact hp2⟩
  · intro e h
    rcases bind_eq_err h with h1 | ⟨a, s1, h1, h2⟩
    · exact (hx s hE hp).2 e h1
    · obtain ⟨ht1, hp1⟩ := (hx s hE hp).1 a s1 h1
      have hE1 : EOFLast s1.tokens := by rw [ht1]; exact hE
      have hp1' : s1.pos < s1.tokens.length := by rw [ht1]; exact hp1
      exact (hf a s1 hE1 hp1').2 e h2

theorem safe_pure {α : Type} (a : α) : Safe (pure a : PM α) := by
  intro s hE hp
  constructor
  · intro b s' h
    rw [pm_pure_run] at h
    cases h
    exact ⟨rfl, hp⟩
  · intro e h
    rw [pm_pure_run] at h
    exact Except.noConfusion h

theorem safe_eat {tt : TokenType} (hne : tt ≠ .END_OF_FILE) : Safe (eat tt) := by
  intro s hE hp
  constructor
  · intro a s' h
    obtain ⟨hc, htt, hadv⟩ := eat_ok h
    subst hadv
    refine ⟨rfl, ?_⟩
    rw [advance_pos]
    exact eof_last_advance_lt hE hc (htt ▸ hne)
  · intro e h
    exact eat_err_of_lt hp h

theorem safe_try_eat {tt : TokenType} (hne : tt ≠ .END_OF_FILE) :
    Safe (try_eat tt) := by
  intro s hE hp
  constructor
  · intro b s' h
    rcases try_eat_ok h with ⟨_, t, hc, htt, hadv⟩ | ⟨_, hs⟩
    · subst hadv
      refine ⟨rfl, ?_⟩
      rw [advance_pos]
      exact eof_last_advance_lt hE hc (htt ▸ hne)
    · subst hs
      exact ⟨rfl, hp⟩
  · intro e h
    obtain ⟨_, hcn⟩ := try_eat_err h
    rw [cur_of_lt hp] at hcn
    exact Option.noConfusion hcn

theorem safe_ict (tt : TokenType) : Safe (is_current_token tt) := by
  intro s hE hp
  constructor
  · intro b s' h
    obtain ⟨hs, _⟩ := ict_ok h
    subst hs
    exact ⟨rfl, hp⟩
  · intro e h
    have := ict_err h
    rw [ict_some (cur_of_lt hp)] at h
    exact Except.noConfusion h

theorem safe_ict_any (kinds : List TokenType) : Safe (is_current_token_any kinds) := by
  intro s hE hp
  constructor
  · intro b s' h
    obtain ⟨hs, _⟩ := ict_any_ok h
    subst hs
    exact ⟨rfl, hp⟩
  · intro e h
    rw [ict_any_some (cur_of_lt hp)] at h
    exact Except.noConfusion h

theorem safe_loopFuel : Safe loopFuel := by
  intro s hE hp
  constructor
  · intro a s' h
    rw [loopFuel_run] at h
    cases h
    exact ⟨rfl, hp⟩
  · intro e h
    rw [loopFuel_run] at h
    exact Except.noConfusion h

theorem safe_perrorM {α : Type} (msg : String) : Safe (perrorM msg : PM α) := by
  intro s hE hp
  constructor
  · intro a s' h
    rw [perrorM_run] at h
    exact Except.noConfusion h
  · intro e h
    rw [perrorM_run] at h
    unfold perror at h
    rw [cur_of_lt hp] at h
    exact ⟨_, _, _, (Except.error.inj h).symm⟩

/-- `Safe` specialized at one entry state. -/
def SafeAt {α : Type} (m : PM α) (s : PState) : Prop :=
  (∀ a s', m s = .ok (a, s') →
    s'.tokens = s.tokens ∧ s'.pos < s.tokens.length) ∧
  (∀ e, m s = .error e → IsPE e)

theorem safe_loopFuel_aux {α : Type} {A : Nat → PM α}
    (hA : ∀ fuel s, EOFLast s.tokens → s.pos < s.tokens.length →
      s.tokens.length - s.pos < fuel → SafeAt (A fuel) s) :
    Safe (loopFuel >>= fun fuel => A fuel) := by
  intro s hE hp
  constructor
  · intro a s' h
    obtain ⟨fuel, s1, h1, h2⟩ := bind_eq_ok h
    rw [loopFuel_run] at h1
    cases h1
    exact (hA _ s hE hp (by omega)).1 a s' h2
  · intro e h
    rcases bind_eq_err h with h1 | ⟨fuel, s1, h1, h2⟩
    · rw [loopFuel_run] at h1
      exact Except.noConfusion h1
    · rw [loopFuel_run] at h1
      cases h1
      exact (hA _ s hE hp (by omega)).2 e h2

theorem safe_skip_newlines_aux :
    ∀ fuel s, EOFLast s.tokens → s.pos < s.tokens.length →
      s.tokens.length - s.pos < fuel → SafeAt (skip_newlines_aux fuel) s := by
  intro fuel
  induction fuel with
  | zero => intro s _ _ hb; exact absurd hb (Nat.not_lt_zero _)
  | succ n ih =>
    intro s hE hp hb
    have hstep : ∀ s1, try_eat TokenType.NEWLINE s = .ok (true, s1) →
        s1.tokens = s.tokens ∧ s1.pos < s.tokens.length ∧ s.pos < s1.pos := by
      intro s1 h1
      rcases try_eat_ok h1 with ⟨_, t, hct, htt, hadv⟩ | ⟨hbf, _⟩
      · subst hadv
        refine ⟨advance_tokens s, ?_, by rw [advance_pos]; omega⟩
        rw [advance_pos]
        exact eof_last_advance_lt hE hct (by rw [htt]; decide)
      · exact Bool.noConfusion hbf
    constructor
    · intro a s' h
      simp only [skip_newlines_aux] at h
      obtain ⟨b, s1, h1, h2⟩ := bind_eq_ok h
      cases b with
      | false =>
        rcases try_eat_ok h1 with ⟨hbf, _⟩ | ⟨_, hs⟩
        · exact Bool.noConfusion hbf
        · rw [hs] at h2
          have h2' : (pure () : PM Unit) s = .ok (a, s') := h2
          rw [pm_pure_run] at h2'
          cases h2'
          exact ⟨rfl, hp⟩
      | true =>
        obtain ⟨ht1, hp1, hprog⟩ := hstep s1 h1
        have hE1 : EOFLast s1.tokens := by rw [ht1]; exact hE
        have := (ih s1 hE1 (by rw [ht1]; exact hp1) (by rw [ht1]; omega)).1 a s' h2
        rw [ht1] at this
        exact this
    · intro e h
      simp only [skip_newlines_aux] at h
      rcases bind_eq_err h with h1 | ⟨b, s1, h1, h2⟩
      · obtain ⟨_, hcn⟩ := try_eat_err h1
        rw [cur_of_lt hp] at hcn
        exact Option.noConfusion hcn
      · cases b with
        | false =>
          have h2' : (pure () : PM Unit) s1 = .error e := h2
          rw [pm_pure_run] at h2'
          exact Except.noConfusion h2'
        | true =>
          obtain ⟨ht1, hp1, hprog⟩ := hstep s1 h1
          have hE1 : EOFLast s1.tokens := by rw [ht1]; exact hE
          exact (ih s1 hE1 (by rw [ht1]; exact hp1) (by rw [ht1]; omega)).2 e h2

theorem safe_skip_newlines : Safe skip_newlines :=
  safe_loopFuel_aux safe_skip_newlines_aux

theorem safe_header_aux :
    ∀ fuel acc s, EOFLast s.tokens → s.pos < s.tokens.length →
      s.tokens.length - s.pos < fuel → SafeAt (header_aux fuel acc) s := by
  intro fuel
  induction fuel with
  | zero => intro acc s _ _ hb; exact absurd hb (Nat.not_lt_zero _)
  | succ n ih =>
    intro acc s hE hp hb
    constructor
    · intro a s' h
      simp only [header_aux] at h
      obtain ⟨b, s1, h1, h2⟩ := bind_eq_ok h
      obtain ⟨hs1, _⟩ := ict_ok h1
      rw [hs1] at h2
      cases b with
      | false =>
        have h2' : (pure acc : PM (List FileAttribute)) s = .ok (a, s') := h2
        rw [pm_pure_run] at h2'
        cases h2'
        exact ⟨rfl, hp⟩
      | true =>
        obtain ⟨tok, s2, h3, h4⟩ := bind_eq_ok h2
        obtain ⟨t2, s3, h5, h6⟩ := bind_eq_ok h4
        obtain ⟨u, s4, h7, h8⟩ := bind_eq_ok h6
        obtain ⟨ht2, hp2⟩ := (@safe_eat TokenType.FILE_ATTRIBUTE (by decide)
          s hE hp).1 tok s2 h3
        have hE2 : EOFLast s2.tokens := by rw [ht2]; exact hE
        have hp2' : s2.pos < s2.tokens.length := by rw [ht2]; exact hp2
        obtain ⟨ht3, hp3⟩ := (@safe_eat TokenType.NEWLINE (by decide)
          s2 hE2 hp2').1 t2 s3 h5
        have hE3 : EOFLast s3.tokens := by rw [ht3]; exact hE2
        have hp3' : s3.pos < s3.tokens.length := by rw [ht3]; exact hp3
        obtain ⟨ht4, hp4⟩ := (safe_skip_newlines s3 hE3 hp3').1 u s4 h7
        have hE4 : EOFLast s4.tokens := by rw [ht4]; exact hE3
        have hp4' : s4.pos < s4.tokens.length := by rw [ht4]; exact hp4
        have e2 := eat_progress h3
        have m3 := (mono_eat _) _ _ _ h5
        have m4 := mono_skip_newlines _ _ _ h7
        have hl2 := congrArg List.length ht2
        have hl3 := congrArg List.length ht3
        have hl4 := congrArg List.length ht4
        have := (ih _ s4 hE4 hp4' (by omega)).1 a s' h8
        refine ⟨by rw [this.1, ht4, ht3, ht2], by omega⟩
    · intro e h
      simp only [header_aux] at h
      rcases bind_eq_err h with h1 | ⟨b, s1, h1, h2⟩
      · rw [ict_some (cur_of_lt hp)] at h1
        exact Except.noConfusion h1
      · obtain ⟨hs1, _⟩ := ict_ok h1
        rw [hs1] at h2
        cases b with
        | false =>
          have h2' : (pure acc : PM (List FileAttribute)) s = .error e := h2
          rw [pm_pure_run] at h2'
          exact Except.noConfusion h2'
        | true =>
          rcases bind_eq_err h2 with h3 | ⟨tok, s2, h3, h4⟩
          · exact eat_err_of_lt hp h3
          · obtain ⟨ht2, hp2⟩ := (@safe_eat TokenType.FILE_ATTRIBUTE (by decide)
              s hE hp).1 tok s2 h3
            have hE2 : EOFLast s2.tokens := by rw [ht2]; exact hE
            have hp2' : s2.pos < s2.tokens.length := by rw [ht2]; exact hp2
            rcases bind_eq_err h4 with h5 | ⟨t2, s3, h5, h6⟩
            · exact eat_err_of_lt hp2' h5
            · obtain ⟨ht3, hp3⟩ := (@safe_eat TokenType.NEWLINE (by decide)
                s2 hE2 hp2').1 t2 s3 h5
              have hE3 : EOFLast s3.tokens := by rw [ht3]; exact hE2
              have hp3' : s3.pos < s3.tokens.length := by rw [ht3]; exact hp3
              rcases bind_eq_err h6 with h7 | ⟨u, s4, h7, h8⟩
              · exact (safe_skip_newlines s3 hE3 hp3').2 e h7
              · obtain ⟨ht4, hp4⟩ := (safe_skip_newlines s3 hE3 hp3').1 u s4 h7
                have hE4 : EOFLast s4.tokens := by rw [ht4]; exact hE3
                have hp4' : s4.pos < s4.tokens.length := by rw [ht4]; exact hp4
                have e2 := eat_progress h3
                have m3 := (mono_eat _) _ _ _ h5
                have m4 := mono_skip_newlines _ _ _ h7
                have hl2 := congrArg List.length ht2
                have hl3 := congrArg List.length ht3
                have hl4 := congrArg List.length ht4
                exact (ih _ s4 hE4 hp4' (by omega)).2 e h8

theorem safe_header : Safe header :=
  safe_loopFuel_aux (fun fuel s hE hp hb => safe_header_aux fuel [] s hE hp hb)

theorem safe_param_def : Safe param_def := by
  unfold param_def
  refine safe_bind (safe_eat (by decide)) (fun t => ?_)
  refine safe_bind (safe_eat (by decide)) (fun t2 => ?_)
  refine safe_bind (safe_try_eat (by decide)) (fun b => ?_)
  cases b
  · refine safe_bind (safe_try_eat (by decide)) (fun b2 => ?_)
    cases b2
    · exact safe_perrorM _
    · exact safe_pure _
  · exact safe_pure _

theorem pure_ne_error {α : Type} (a : α) (s : PState) (e : PErr) :
    (pure a : PM α) s ≠ .error e := by
  rw [pm_pure_run]
  exact fun h => Except.noConfusion h

theorem safe_params_def_aux :
    ∀ fuel acc s, EOFLast s.tokens → s.pos < s.tokens.length →
      s.tokens.length - s.pos < fuel → SafeAt (params_def_aux fuel acc) s := by
  intro fuel
  induction fuel with
  | zero => intro acc s _ _ hb; exact absurd hb (Nat.not_lt_zero _)
  | succ n ih =>
    intro acc s hE hp hb
    constructor
    · intro a s' h
      simp only [params_def_aux] at h
      obtain ⟨b, s1, h1, h2⟩ := bind_eq_ok h
      cases b with
      | false =>
        rcases try_eat_ok h1 with ⟨hbf, _⟩ | ⟨_, hs⟩
        · exact Bool.noConfusion hbf
        · rw [hs] at h2
          have h2' : (pure acc : PM (List Parameter)) s = .ok (a, s') := h2
          rw [pm_pure_run] at h2'
          cases h2'
          exact ⟨rfl, hp⟩
      | true =>
        obtain ⟨ht1, hp1⟩ := (@safe_try_eat TokenType.COMMA (by decide) s hE hp).1 _ s1 h1
        have e1 := try_eat_true_progress h1
        have hE1 : EOFLast s1.tokens := by rw [ht1]; exact hE
        have hp1' : s1.pos < s1.tokens.length := by rw [ht1]; exact hp1
        obtain ⟨p, s2, h3, h4⟩ := bind_eq_ok h2
        obtain ⟨ht2, hp2⟩ := (safe_param_def s1 hE1 hp1').1 p s2 h3
        have hE2 : EOFLast s2.tokens := by rw [ht2]; exact hE1
        have hp2' : s2.pos < s2.tokens.length := by rw [ht2]; exact hp2
        have m2 := mono_param_def _ _ _ h3
        have hl1 := congrArg List.length ht1
        have hl2 := congrArg List.length ht2
        have := (ih _ s2 hE2 hp2' (by omega)).1 a s' h4
        refine ⟨by rw [this.1, ht2, ht1], by omega⟩
    · intro e h
      simp only [params_def_aux] at h
      rcases bind_eq_err h with h1 | ⟨b, s1, h1, h2⟩
      · exact (@safe_try_eat TokenType.COMMA (by decide) s hE hp).2 e h1
      · cases b with
        | false =>
          rcases try_eat_ok h1 with ⟨hbf, _⟩ | ⟨_, hs⟩
          · exact Bool.noConfusion hbf
          · rw [hs] at h2
            exact absurd h2 (pure_ne_error _ _ _)
        | true =>
          obtain ⟨ht1, hp1⟩ := (@safe_try_eat TokenType.COMMA (by decide) s hE hp).1 _ s1 h1
          have e1 := try_eat_true_progress h1
          have hE1 : EOFLast s1.tokens := by rw [ht1]; exact hE
          have hp1' : s1.pos < s1.tokens.length := by rw [ht1]; exact hp1
          rcases bind_eq_err h2 with h3 | ⟨p, s2, h3, h4⟩
          · exact (safe_param_def s1 hE1 hp1').2 e h3
          · obtain ⟨ht2, hp2⟩ := (safe_param_def s1 hE1 hp1').1 p s2 h3
            have hE2 : EOFLast s2.tokens := by rw [ht2]; exact hE1
            have hp2' : s2.pos < s2.tokens.length := by rw [ht2]; exact hp2
            have m2 := mono_param_def _ _ _ h3
            have hl1 := congrArg List.length ht1
            have hl2 := congrArg List.length ht2
            exact (ih _ s2 hE2 hp2' (by omega)).2 e h4

theorem safe_params_def : Safe params_def := by
  unfold params_def
  refine safe_bind (safe_ict _) (fun b => ?_)
  cases b
  · exact safe_pure _
  · refine safe_bind safe_param_def (fun p => ?_)
    exact safe_loopFuel_aux (fun fuel s hE hp hb =>
      safe_params_def_aux fuel [p] s hE hp hb)

theorem safe_param : Safe param :=
  safe_bind (safe_eat (by decide)) (fun t => safe_pure _)

theorem safe_params_aux :
    ∀ fuel acc s, EOFLast s.tokens → s.pos < s.tokens.length →
      s.tokens.length - s.pos < fuel → SafeAt (params_aux fuel acc) s := by
  intro fuel
  induction fuel with
  | zero => intro acc s _ _ hb; exact absurd hb (Nat.not_lt_zero _)
  | succ n ih =>
    intro acc s hE hp hb
    constructor
    · intro a s' h
      simp only [params_aux] at h
      obtain ⟨b, s1, h1, h2⟩ := bind_eq_ok h
      cases b with
      | false =>
        rcases try_eat_ok h1 with ⟨hbf, _⟩ | ⟨_, hs⟩
        · exact Bool.noConfusion hbf
        · rw [hs] at h2
          have h2' : (pure acc : PM (List String)) s = .ok (a, s') := h2
          rw [pm_pure_run] at h2'
          cases h2'
          exact ⟨rfl, hp⟩
      | true =>
        obtain ⟨ht1, hp1⟩ := (@safe_try_eat TokenType.COMMA (by decide) s hE hp).1 _ s1 h1
        have e1 := try_eat_true_progress h1
        have hE1 : EOFLast s1.tokens := by rw [ht1]; exact hE
        have hp1' : s1.pos < s1.tokens.length := by rw [ht1]; exact hp1
        obtain ⟨p, s2, h3, h4⟩ := bind_eq_ok h2
        obtain ⟨ht2, hp2⟩ := (safe_param s1 hE1 hp1').1 p s2 h3
        have hE2 : EOFLast s2.tokens := by rw [ht2]; exact hE1
        have hp2' : s2.pos < s2.tokens.length := by rw [ht2]; exact hp2
        have m2 := mono_param _ _ _ h3
        have hl1 := congrArg List.length ht1
        have hl2 := congrArg List.length ht2
        have := (ih _ s2 hE2 hp2' (by omega)).1 a s' h4
        refine ⟨by rw [this.1, ht2, ht1], by omega⟩
    · intro e h
      simp only [params_aux] at h
      rcases bind_eq_err h with h1 | ⟨b, s1, h1, h2⟩
      · exact (@safe_try_eat TokenType.COMMA (by decide) s hE hp).2 e h1
      · cases b with
        | false =>
          rcases try_eat_ok h1 with ⟨hbf, _⟩ | ⟨_, hs⟩
          · exact Bool.noConfusion hbf
          · rw [hs] at h2
            exact absurd h2 (pure_ne_error _ _ _)
        | true =>
          obtain ⟨ht1, hp1⟩ := (@safe_try_eat TokenType.COMMA (by decide) s hE hp).1 _ s1 h1
          have e1 := try_eat_true_progress h1
          have hE1 : EOFLast s1.tokens := by rw [ht1]; exact hE
          have hp1' : s1.pos < s1.tokens.length := by rw [ht1]; exact hp1
          rcases bind_eq_err h2 with h3 | ⟨p, s2, h3, h4⟩
          · exact (safe_param s1 hE1 hp1').2 e h3
          · obtain ⟨ht2, hp2⟩ := (safe_param s1 hE1 hp1').1 p s2 h3
            have hE2 : EOFLast s2.tokens := by rw [ht2]; exact hE1
            have hp2' : s2.pos < s2.tokens.length := by rw [ht2]; exact hp2
            have m2 := mono_param _ _ _ h3
            have hl1 := congrArg List.length ht1
            have hl2 := congrArg List.length ht2
            exact (ih _ s2 hE2 hp2' (by omega)).2 e h4

theorem safe_params : Safe params := by
  unfold params
  refine safe_bind (safe_ict _) (fun b => ?_)
  cases b
  · exact safe_pure _
  · refine safe_bind safe_param (fun p => ?_)
    exact safe_loopFuel_aux (fun fuel s hE hp hb =>
      safe_params_aux fuel [p] s hE hp hb)

theorem safe_mod_call : Safe mod_call := by
  unfold mod_call
  refine safe_bind (safe_eat (by decide)) (fun t => ?_)
  refine safe_bind (safe_eat (by decide)) (fun t2 => ?_)
  refine safe_bind safe_params (fun ps => ?_)
  refine safe_bind (safe_eat (by decide)) (fun t3 => ?_)
  exact safe_bind (safe_eat (by decide)) (fun t4 => safe_pure _)

theorem safe_body_aux :
    ∀ fuel acc s, EOFLast s.tokens → s.pos < s.tokens.length →
      s.tokens.length - s.pos < fuel → SafeAt (body_aux fuel acc) s := by
  intro fuel
  induction fuel with
  | zero => intro acc s _ _ hb; exact absurd hb (Nat.not_lt_zero _)
  | succ n ih =>
    intro acc s hE hp hb
    constructor
    · intro a s' h
      simp only [body_aux] at h
      obtain ⟨u, s1, h1, h2⟩ := bind_eq_ok h
      obtain ⟨ht1, hp1⟩ := (safe_skip_newlines s hE hp).1 u s1 h1
      have hE1 : EOFLast s1.tokens := by rw [ht1]; exact hE
      have hp1' : s1.pos < s1.tokens.length := by rw [ht1]; exact hp1
      have m1 := mono_skip_newlines _ _ _ h1
      obtain ⟨b, s2, h3, h4⟩ := bind_eq_ok h2
      obtain ⟨hs2, _⟩ := ict_ok h3
      rw [hs2] at h4
      cases b with
      | false =>
        have h4' : (pure acc : PM (List FunctionCall)) s1 = .ok (a, s') := h4
        rw [pm_pure_run] at h4'
        cases h4'
        exact ⟨ht1, hp1⟩
      | true =>
        obtain ⟨c, s3, h5, h6⟩ := bind_eq_ok h4
        obtain ⟨ht3, hp3⟩ := (safe_mod_call s1 hE1 hp1').1 c s3 h5
        have hE3 : EOFLast s3.tokens := by rw [ht3]; exact hE1
        have hp3' : s3.pos < s3.tokens.length := by rw [ht3]; exact hp3
        have p3 := mod_call_progress h5
        have hl1 := congrArg List.length ht1
        have hl3 := congrArg List.length ht3
        have := (ih _ s3 hE3 hp3' (by omega)).1 a s' h6
        refine ⟨by rw [this.1, ht3, ht1], by omega⟩
    · intro e h
      simp only [body_aux] at h
      rcases bind_eq_err h with h1 | ⟨u, s1, h1, h2⟩
      · exact (safe_skip_newlines s hE hp).2 e h1
      · obtain ⟨ht1, hp1⟩ := (safe_skip_newlines s hE hp).1 u s1 h1
        have hE1 : EOFLast s1.tokens := by rw [ht1]; exact hE
        have hp1' : s1.pos < s1.tokens.length := by rw [ht1]; exact hp1
        have m1 := mono_skip_newlines _ _ _ h1
        rcases bind_eq_err h2 with h3 | ⟨b, s2, h3, h4⟩
        · rw [ict_some (cur_of_lt hp1')] at h3
          exact Except.noConfusion h3
        · obtain ⟨hs2, _⟩ := ict_ok h3
          rw [hs2] at h4
          cases b with
          | false => exact absurd h4 (pure_ne_error _ _ _)
          | true =>
            rcases bind_eq_err h4 with h5 | ⟨c, s3, h5, h6⟩
            · exact (safe_mod_call s1 hE1 hp1').2 e h5
            · obtain ⟨ht3, hp3⟩ := (safe_mod_call s1 hE1 hp1').1 c s3 h5
              have hE3 : EOFLast s3.tokens := by rw [ht3]; exact hE1
              have hp3' : s3.pos < s3.tokens.length := by rw [ht3]; exact hp3
              have p3 := mod_call_progress h5
              have hl1 := congrArg List.length ht1
              have hl3 := congrArg List.length ht3
              exact (ih _ s3 hE3 hp3' (by omega)).2 e h6

theorem safe_body : Safe body :=
  safe_loopFuel_aux (fun fuel s hE hp hb => safe_body_aux fuel [] s hE hp hb)

theorem safe_mod_def : Safe mod_def := by
  unfold mod_def
  refine safe_bind safe_skip_newlines (fun u => ?_)
  refine safe_bind (safe_try_eat (by decide)) (fun g => ?_)
  refine safe_bind (safe_ict _) (fun b => ?_)
  cases b
  · exact safe_pure _
  · refine safe_bind (safe_eat (by decide)) (fun t1 => ?_)
    refine safe_bind (safe_eat (by decide)) (fun t2 => ?_)
    refine safe_bind (safe_eat (by decide)) (fun t3 => ?_)
    refine safe_bind safe_params_def (fun ps => ?_)
    refine safe_bind (safe_eat (by decide)) (fun t4 => ?_)
    refine safe_bind (safe_eat (by decide)) (fun t5 => ?_)
    refine safe_bind safe_skip_newlines (fun u2 => ?_)
    refine safe_bind safe_body (fun bd => ?_)
    refine safe_bind (safe_eat (by decide)) (fun t6 => ?_)
    exact safe_bind safe_skip_newlines (fun u3 => safe_pure _)

theorem safe_fnc_def : Safe fnc_def := by
  unfold fnc_def
  refine safe_bind safe_skip_newlines (fun u => ?_)
  refine safe_bind (safe_try_eat (by decide)) (fun g => ?_)
  refine safe_bind (safe_ict _) (fun b => ?_)
  cases b
  · exact safe_pure _
  · refine safe_bind (safe_eat (by decide)) (fun t1 => ?_)
    refine safe_bind (safe_eat (by decide)) (fun t2 => ?_)
    refine safe_bind (safe_eat (by decide)) (fun t3 => ?_)
    refine safe_bind (safe_eat (by decide)) (fun t4 => ?_)
    refine safe_bind safe_params_def (fun ps => ?_)
    refine safe_bind (safe_eat (by decide)) (fun t5 => ?_)
    refine safe_bind (safe_eat (by decide)) (fun t6 => ?_)
    refine safe_bind safe_skip_newlines (fun u2 => ?_)
    refine safe_bind safe_body (fun bd => ?_)
    refine safe_bind (safe_eat (by decide)) (fun t7 => ?_)
    exact safe_bind safe_skip_newlines (fun u3 => safe_pure _)

theorem safe_dat_def : Safe dat_def := by
  unfold dat_def
  refine safe_bind safe_skip_newlines (fun u => ?_)
  refine safe_bind (safe_eat (by decide)) (fun t1 => ?_)
  refine safe_bind (safe_eat (by decide)) (fun t2 => ?_)
  refine safe_bind (safe_try_eat (by decide)) (fun p => ?_)
  refine safe_bind (safe_eat (by decide)) (fun t3 => ?_)
  refine safe_bind safe_skip_newlines (fun u2 => ?_)
  refine safe_bind (safe_eat (by decide)) (fun t4 => ?_)
  exact safe_bind safe_skip_newlines (fun u3 => safe_pure _)

theorem safe_source_file_aux :
    ∀ fuel acc s, EOFLast s.tokens → s.pos < s.tokens.length →
      s.tokens.length - s.pos < fuel → SafeAt (source_file_aux fuel acc) s := by
  intro fuel
  induction fuel with
  | zero => intro acc s _ _ hb; exact absurd hb (Nat.not_lt_zero _)
  | succ n ih =>
    intro acc s hE hp hb
    constructor
    · intro a s' h
      simp only [source_file_aux] at h
      obtain ⟨b, s1, h1, h2⟩ := bind_eq_ok h
      obtain ⟨hs1, t, hct, hbval⟩ := ict_any_ok h1
      rw [hs1] at h2
      cases b with
      | false =>
        have h2' : (pure acc : PM (List FunctionDefinition)) s = .ok (a, s') := h2
        rw [pm_pure_run] at h2'
        cases h2'
        exact ⟨rfl, hp⟩
      | true =>
        have hkinds : t.token_type = .GLOBAL ∨ t.token_type = .DEF ∨
            t.token_type = .DEFFCT := by
          revert hbval
          cases t.token_type <;> decide
        obtain ⟨d1, s2, h3, h4⟩ := bind_eq_ok h2
        obtain ⟨ht2, hp2⟩ := (safe_mod_def s hE hp).1 d1 s2 h3
        have hE2 : EOFLast s2.tokens := by rw [ht2]; exact hE
        have hp2' : s2.pos < s2.tokens.length := by rw [ht2]; exact hp2
        obtain ⟨d2, s3, h5, h6⟩ := bind_eq_ok h4
        obtain ⟨ht3, hp3⟩ := (safe_fnc_def s2 hE2 hp2').1 d2 s3 h5
        have hE3 : EOFLast s3.tokens := by rw [ht3]; exact hE2
        have hp3' : s3.pos < s3.tokens.length := by rw [ht3]; exact hp3
        have m2 := mono_mod_def _ _ _ h3
        have m3 := mono_fnc_def _ _ _ h5
        have hl2 := congrArg List.length ht2
        have hl3 := congrArg List.length ht3
        have hprog : s.pos < s3.pos := by
          rcases hkinds with hk | hk | hk
          · have := mod_def_progress hct (Or.inl hk) h3
            omega
          · have := mod_def_progress hct (Or.inr hk) h3
            omega
          · have hskip := mod_def_skip hct (by rw [hk]; decide)
              (by rw [hk]; decide) (by rw [hk]; decide)
            rw [h3] at hskip
            cases hskip
            exact fnc_def_progress hct hk h5
        have := (ih _ s3 hE3 hp3' (by omega)).1 a s' h6
        refine ⟨by rw [this.1, ht3, ht2], by omega⟩
    · intro e h
      simp only [source_file_aux] at h
      rcases bind_eq_err h with h1 | ⟨b, s1, h1, h2⟩
      · rw [ict_any_some (cur_of_lt hp)] at h1
        exact Except.noConfusion h1
      · obtain ⟨hs1, t, hct, hbval⟩ := ict_any_ok h1
        rw [hs1] at h2
        cases b with
        | false => exact absurd h2 (pure_ne_error _ _ _)
        | true =>
          have hkinds : t.token_type = .GLOBAL ∨ t.token_type = .DEF ∨
              t.token_type = .DEFFCT := by
            revert hbval
            cases t.token_type <;> decide
          rcases bind_eq_err h2 with h3 | ⟨d1, s2, h3, h4⟩
          · exact (safe_mod_def s hE hp).2 e h3
          · obtain ⟨ht2, hp2⟩ := (safe_mod_def s hE hp).1 d1 s2 h3
            have hE2 : EOFLast s2.tokens := by rw [ht2]; exact hE
            have hp2' : s2.pos < s2.tokens.length := by rw [ht2]; exact hp2
            rcases bind_eq_err h4 with h5 | ⟨d2, s3, h5, h6⟩
            · exact (safe_fnc_def s2 hE2 hp2').2 e h5
            · obtain ⟨ht3, hp3⟩ := (safe_fnc_def s2 hE2 hp2').1 d2 s3 h5
              have hE3 : EOFLast s3.tokens := by rw [ht3]; exact hE2
              have hp3' : s3.pos < s3.tokens.length := by rw [ht3]; exact hp3
              have m2 := mono_mod_def _ _ _ h3
              have m3 := mono_fnc_def _ _ _ h5
              have hl2 := congrArg List.length ht2
              have hl3 := congrArg List.length ht3
              have hprog : s.pos < s3.pos := by
                rcases hkinds with hk | hk | hk
                · have := mod_def_progress hct (Or.inl hk) h3
                  omega
                · have := mod_def_progress hct (Or.inr hk) h3
                  omega
                · have hskip := mod_def_skip hct (by rw [hk]; decide)
                    (by rw [hk]; decide) (by rw [hk]; decide)
                  rw [h3] at hskip
                  cases hskip
                  exact fnc_def_progress hct hk h5
              exact (ih _ s3 hE3 hp3' (by omega)).2 e h6

theorem safe_data_file_aux :
    ∀ fuel acc s, EOFLast s.tokens → s.pos < s.tokens.length →
      s.tokens.length - s.pos < fuel → SafeAt (data_file_aux fuel acc) s := by
  intro fuel
  induction fuel with
  | zero => intro acc s _ _ hb; exact absurd hb (Nat.not_lt_zero _)
  | succ n ih =>
    intro acc s hE hp hb
    constructor
    · intro a s' h
      simp only [data_file_aux] at h
      obtain ⟨b, s1, h1, h2⟩ := bind_eq_ok h
      obtain ⟨hs1, t, hct, hbval⟩ := ict_ok h1
      rw [hs1] at h2
      cases b with
      | false =>
        have h2' : (pure acc : PM (List DataDefinition)) s = .ok (a, s') := h2
        rw [pm_pure_run] at h2'
        cases h2'
        exact ⟨rfl, hp⟩
      | true =>
        obtain ⟨d, s2, h3, h4⟩ := bind_eq_ok h2
        obtain ⟨ht2, hp2⟩ := (safe_dat_def s hE hp).1 d s2 h3
        have hE2 : EOFLast s2.tokens := by rw [ht2]; exact hE
        have hp2' : s2.pos < s2.tokens.length := by rw [ht2]; exact hp2
        have p2 := dat_def_progress h3
        have hl2 := congrArg List.length ht2
        have := (ih _ s2 hE2 hp2' (by omega)).1 a s' h4
        refine ⟨by rw [this.1, ht2], by omega⟩
    · intro e h
      simp only [data_file_aux] at h
      rcases bind_eq_err h with h1 | ⟨b, s1, h1, h2⟩
      · rw [ict_some (cur_of_lt hp)] at h1
        exact Except.noConfusion h1
      · obtain ⟨hs1, t, hct, hbval⟩ := ict_ok h1
        rw [hs1] at h2
        cases b with
        | false => exact absurd h2 (pure_ne_error _ _ _)
        | true =>
          rcases bind_eq_err h2 with h3 | ⟨d, s2, h3, h4⟩
          · exact (safe_dat_def s hE hp).2 e h3
          · obtain ⟨ht2, hp2⟩ := (safe_dat_def s hE hp).1 d s2 h3
            have hE2 : EOFLast s2.tokens := by rw [ht2]; exact hE
            have hp2' : s2.pos < s2.tokens.length := by rw [ht2]; exact hp2
            have p2 := dat_def_progress h3
            have hl2 := congrArg List.length ht2
            exact (ih _ s2 hE2 hp2' (by omega)).2 e h4

/-- Any failure of `_source_file`, started on a present token of an
EOF-terminated stream, is a located `ParsingError`. -/
theorem source_file_err_isPE (name : String) :
    ∀ s, EOFLast s.tokens → s.pos < s.tokens.length →
      ∀ e, source_file name s = .error e → IsPE e := by
  intro s hE hp e h
  unfold source_file at h
  rcases bind_eq_err h with h1 | ⟨attrs, s1, h1, h2⟩
  · exact (safe_header s hE hp).2 e h1
  · obtain ⟨ht1, hp1⟩ := (safe_header s hE hp).1 attrs s1 h1
    have hE1 : EOFLast s1.tokens := by rw [ht1]; exact hE
    have hp1' : s1.pos < s1.tokens.length := by rw [ht1]; exact hp1
    rcases bind_eq_err h2 with h3 | ⟨fuel, s2, h3, h4⟩
    · rw [loopFuel_run] at h3
      exact Except.noConfusion h3
    · rw [loopFuel_run] at h3
      cases h3
      rcases bind_eq_err h4 with h5 | ⟨stmts, s3, h5, h6⟩
      · exact (safe_source_file_aux _ [] s1 hE1 hp1' (by omega)).2 e h5
      · obtain ⟨ht3, hp3⟩ :=
          (safe_source_file_aux _ [] s1 hE1 hp1' (by omega)).1 stmts s3 h5
        have hp3' : s3.pos < s3.tokens.length := by rw [ht3]; exact hp3
        by_cases he : stmts.isEmpty
        · simp only [he, if_true] at h6
          rw [perrorM_run] at h6
          unfold perror at h6
          rw [cur_of_lt hp3'] at h6
          exact ⟨_, _, _, (Except.error.inj h6).symm⟩
        · simp only [he, if_false] at h6
          rcases bind_eq_err h6 with h7 | ⟨t, s4, h7, h8⟩
          · exact eat_err_of_lt hp3' h7
          · exact absurd h8 (pure_ne_error _ _ _)

/-- Any failure of `_data_file`, started on a present token of an
EOF-terminated stream, is a located `ParsingError`. -/
theorem data_file_err_isPE (name : String) :
    ∀ s, EOFLast s.tokens → s.pos < s.tokens.length →
      ∀ e, data_file name s = .error e → IsPE e := by
  intro s hE hp e h
  unfold data_file at h
  rcases bind_eq_err h with h1 | ⟨attrs, s1, h1, h2⟩
  · exact (safe_header s hE hp).2 e h1
  · obtain ⟨ht1, hp1⟩ := (safe_header s hE hp).1 attrs s1 h1
    have hE1 : EOFLast s1.tokens := by rw [ht1]; exact hE
    have hp1' : s1.pos < s1.tokens.length := by rw [ht1]; exact hp1
    rcases bind_eq_err h2 with h3 | ⟨fuel, s2, h3, h4⟩
    · rw [loopFuel_run] at h3
      exact Except.noConfusion h3
    · rw [loopFuel_run] at h3
      cases h3
      rcases bind_eq_err h4 with h5 | ⟨stmts, s3, h5, h6⟩
      · exact (safe_data_file_aux _ [] s1 hE1 hp1' (by omega)).2 e h5
      · obtain ⟨ht3, hp3⟩ :=
          (safe_data_file_aux _ [] s1 hE1 hp1' (by omega)).1 stmts s3 h5
        have hp3' : s3.pos < s3.tokens.length := by rw [ht3]; exact hp3
        by_cases he : stmts.isEmpty
        · simp only [he, if_true] at h6
          rw [perrorM_run] at h6
          unfold perror at h6
          rw [cur_of_lt hp3'] at h6
          exact ⟨_, _, _, (Except.error.inj h6).symm⟩
        · simp only [he, if_false] at h6
          by_cases hl : stmts.length > 1
          · simp only [hl, if_true] at h6
            have h6' : (perrorM "More than one data definition found" : PM DataFile) s3 =
                .error e := h6
            rw [perrorM_run] at h6'
            unfold perror at h6'
            rw [cur_of_lt hp3'] at h6'
            exact ⟨_, _, _, (Except.error.inj h6').symm⟩
          · simp only [hl, if_false] at h6
            rcases bind_eq_err h6 with h7 | ⟨t, s4, h7, h8⟩
            · exact eat_err_of_lt hp3' h7
            · exact absurd h8 (pure_ne_error _ _ _)

/-! ### Concrete token streams used by the claims -/

/-- A keyword or punctuation token (its literal value is never read). -/
def kw (tt : TokenType) (ln col : Nat) : Token :=
  { token_type := tt, value := "", line_number := ln, column := col }

/-- An identifier token carrying its text. -/
def ident (v : String) (ln col : Nat) : Token :=
  { token_type := .NAME, value := v, line_number := ln, column := col }

/-- Token stream of a data file with two `DEFDAT`…`ENDDAT` blocks named `a`
and `b`. -/
def twoDatTokens (a b : String) : List Token :=
  [kw .DEFDAT 1 1, ident a 1 8, kw .NEWLINE 1 9, kw .ENDDAT 2 1, kw .NEWLINE 2 7,
   kw .DEFDAT 3 1, ident b 3 8, kw .NEWLINE 3 9, kw .ENDDAT 4 1, kw .NEWLINE 4 7,
   kw .END_OF_FILE 5 1]

/-- Token stream of the minimal procedure source text
`DEF foo()\n END\n`. -/
def minimalProcTokens : List Token :=
  [kw .DEF 1 1, ident "foo" 1 5, kw .LEFT_BRACE 1 8, kw .RIGHT_BRACE 1 9,
   kw .NEWLINE 1 10, kw .END 2 2, kw .NEWLINE 2 5, kw .END_OF_FILE 3 1]

/-- Token stream of `GLOBAL DEF foo()\n END\n`. -/
def globalProcTokens : List Token :=
  [kw .GLOBAL 1 1, kw .DEF 1 8, ident "foo" 1 12, kw .LEFT_BRACE 1 15,
   kw .RIGHT_BRACE 1 16, kw .NEWLINE 1 17, kw .END 2 2, kw .NEWLINE 2 5,
   kw .END_OF_FILE 3 1]

/-- Token stream of `DEFDAT foo PUBLIC\nENDDAT\n`. -/
def publicDatTokens : List Token :=
  [kw .DEFDAT 1 1, ident "foo" 1 8, kw .PUBLIC 1 12, kw .NEWLINE 1 18,
   kw .ENDDAT 2 1, kw .NEWLINE 2 7, kw .END_OF_FILE 3 1]

/-- Token stream of a source file with three definitions in order: procedure
`a`, function `rt b`, procedure `c`. -/
def threeDefTokens (a rt b c : String) : List Token :=
  [kw .DEF 1 1, ident a 1 5, kw .LEFT_BRACE 1 6, kw .RIGHT_BRACE 1 7, kw .NEWLINE 1 8,
   kw .END 2 1, kw .NEWLINE 2 4,
   kw .DEFFCT 3 1, ident rt 3 8, ident b 3 12, kw .LEFT_BRACE 3 13,
   kw .RIGHT_BRACE 3 14, kw .NEWLINE 3 15,
   kw .ENDFCT 4 1, kw .NEWLINE 4 7,
   kw .DEF 5 1, ident c 5 5, kw .LEFT_BRACE 5 6, kw .RIGHT_BRACE 5 7, kw .NEWLINE 5 8,
   kw .END 6 1, kw .NEWLINE 6 4,
   kw .END_OF_FILE 7 1]

/-! ### The claims -/

/-- Claim C1: the three special grammar-adjacent situations produce their
dedicated human-readable diagnostics instead of a generic expected/found
error, as an immediate failure of the file-parse call: a source file whose
final statement list is empty fails with the dedicated "No module or function
definition found" diagnostic; a data file with zero `DEFDAT` blocks fails
with exactly "No data definition found"; a data file with two `DEFDAT` blocks
(whatever the block names) fails with exactly "More than one data definition
found". -/
theorem claim_C1_dedicated_diagnostics :
    (source_file "s" { tokens := [kw .END_OF_FILE 1 1], pos := 0 } =
      .error (.parsingError 1 1 "No module or function definition found")) ∧
    (data_file "d" { tokens := [kw .END_OF_FILE 1 1], pos := 0 } =
      .error (.parsingError 1 1 "No data definition found")) ∧
    (∀ a b : String, data_file "d" { tokens := twoDatTokens a b, pos := 0 } =
      .error (.parsingError 5 1 "More than one data definition found")) :=
  ⟨rfl, rfl, fun a b => rfl⟩

/-- Claim C2 (code evaluation): parsing `GLOBAL DEF foo()\n END\n` succeeds,
but the resulting `FunctionDefinition` has `is_global = false` even though the
definition was introduced by the `GLOBAL` modifier token: `_mod_def` binds the
probe's result to a local it never uses and builds the node without passing
it, so the flag keeps its default. -/
theorem claim_C2_global_flag_dropped :
    source_file "m" { tokens := globalProcTokens, pos := 0 } =
      .ok ({ name := "m", file_attributes := [],
             statements := [{ name := "foo", parameters := [], body := [],
                              returns := none, is_global := false }] },
           { tokens := globalProcTokens, pos := 9 }) := rfl

/-- Claim C3: parsing the minimal procedure source text `DEF foo()\n END\n`
as a source file succeeds and returns a `SourceFile` whose statements list is
exactly one `FunctionDefinition` named "foo" with empty parameters, empty
body, no return type and `is_global = false`. -/
theorem claim_C3_minimal_procedure :
    source_file "test" { tokens := minimalProcTokens, pos := 0 } =
      .ok ({ name := "test", file_attributes := [],
             statements := [{ name := "foo", parameters := [], body := [],
                              returns := none, is_global := false }] },
           { tokens := minimalProcTokens, pos := 8 }) := rfl

/-- Claim C4: while probing for a module definition, `_mod_def` consumes a
leading `GLOBAL` token and then abandons without restoring the cursor: for
every token stream whose current token is `GLOBAL` and whose next token is
not `DEF`, `_mod_def` reports no match (`None`) with the cursor positioned
just after the consumed `GLOBAL`, so the function-definition attempt tried
next does not see the modifier. -/
theorem claim_C4_lossy_global_probe :
    ∀ (s : PState) (t t' : Token),
      s.cur = some t → t.token_type = .GLOBAL →
      s.tokens[s.pos + 1]? = some t' → t'.token_type ≠ .DEF →
      mod_def s = .ok (none, s.advance) := by
  intro s t t' hc hg hnext hnd
  unfold mod_def
  rw [pm_bind_ok _ (skip_newlines_id hc (by rw [hg]; decide))]
  rw [pm_bind_ok _ (try_eat_match hc hg)]
  have hc' : s.advance.cur = some t' := hnext
  rw [pm_bind_ok _ (ict_some hc')]
  simp only [decide_eq_false hnd]
  rfl

/-- Witness for C4 at a concrete stream `GLOBAL x <eof>`. -/
theorem claim_C4_witness :
    mod_def { tokens := [kw .GLOBAL 1 1, ident "x" 1 8, kw .END_OF_FILE 1 9],
              pos := 0 } =
      .ok (none, { tokens := [kw .GLOBAL 1 1, ident "x" 1 8, kw .END_OF_FILE 1 9],
                   pos := 1 }) :=
  claim_C4_lossy_global_probe _ _ _ rfl rfl rfl (by decide)

/-- Claim C5 (code evaluation): parsing `DEFDAT foo PUBLIC\nENDDAT\n`
succeeds, but the resulting `DataDefinition` has `is_public = false` even
though the `PUBLIC` keyword followed the name: `_dat_def` binds the probe's
result to a local it never uses and builds the node passing only `name`, so
the flag keeps its default. -/
theorem claim_C5_public_flag_dropped :
    data_file "d" { tokens := publicDatTokens, pos := 0 } =
      .ok ({ name := "d", file_attributes := [],
             statements := [{ name := "foo", is_public := false }] },
           { tokens := publicDatTokens, pos := 7 }) := rfl

/-- Claim C6: `_try_eat` is exact and non-destructive: on a present current
token whose kind differs from the requested kind it reports no match and
leaves the state (cursor included) exactly unchanged; on a matching kind it
consumes exactly that one token and reports a match. -/
theorem claim_C6_try_eat_exact :
    ∀ (s : PState) (t : Token) (kind : TokenType),
      s.cur = some t →
      (t.token_type ≠ kind → try_eat kind s = .ok (false, s)) ∧
      (t.token_type = kind → try_eat kind s = .ok (true, s.advance)) := by
  intro s t kind hc
  exact ⟨fun hne => try_eat_mismatch hc hne, fun heq => try_eat_match hc heq⟩

/-- Witness for C6 at a concrete stream: a mismatching probe leaves the state
untouched and a matching probe consumes one token. -/
theorem claim_C6_witness :
    (try_eat .DEF { tokens := [kw .NEWLINE 1 1], pos := 0 } =
      .ok (false, { tokens := [kw .NEWLINE 1 1], pos := 0 })) ∧
    (try_eat .NEWLINE { tokens := [kw .NEWLINE 1 1], pos := 0 } =
      .ok (true, PState.advance { tokens := [kw .NEWLINE 1 1], pos := 0 })) :=
  ⟨(claim_C6_try_eat_exact { tokens := [kw .NEWLINE 1 1], pos := 0 }
      (kw .NEWLINE 1 1) .DEF rfl).1 (by decide),
   (claim_C6_try_eat_exact { tokens := [kw .NEWLINE 1 1], pos := 0 }
      (kw .NEWLINE 1 1) .NEWLINE rfl).2 rfl⟩

/-- Claim C7: parsing preserves source order: for any definition names, a
source file with definitions `a` (procedure), `b` (function), `c`
(procedure), in that textual order, parses to a statements list holding
exactly those three definitions in the same order — even though `b` is
matched by the second of the two alternatives tried in each loop
iteration. -/
theorem claim_C7_order_preserved :
    ∀ a rt b c : String,
      source_file "s" { tokens := threeDefTokens a rt b c, pos := 0 } =
        .ok ({ name := "s", file_attributes := [],
               statements := [{ name := a, parameters := [], body := [] },
                              { name := b, parameters := [], body := [],
                                returns := some { name := rt } },
                              { name := c, parameters := [], body := [] }] },
             { tokens := threeDefTokens a rt b c, pos := 23 }) :=
  fun a rt b c => rfl

/-- Claim C8: each façade entry point is atomic with respect to the
accumulated AST list: whatever the lexer outcome and token contents, the call
either raises (carrying the accumulated list unchanged, every previously
appended node intact) or appends exactly one node to its end. -/
theorem claim_C8_atomic_append :
    ∀ (ast : List TopLevelNode) (name : String) (lexedSrc lexedDat : LexResult),
      ((∃ e, add_source_file ast name lexedSrc = .error (e, ast)) ∨
        (∃ n, add_source_file ast name lexedSrc = .ok (ast ++ [n]))) ∧
      ((∃ e, add_data_file ast name lexedDat = .error (e, ast)) ∨
        (∃ n, add_data_file ast name lexedDat = .ok (ast ++ [n]))) ∧
      ((∃ e, add_module ast name lexedSrc lexedDat = .error (e, ast)) ∨
        (∃ n, add_module ast name lexedSrc lexedDat = .ok (ast ++ [n]))) := by
  intro ast name lexedSrc lexedDat
  refine ⟨?_, ?_, ?_⟩
  · cases lexedSrc with
    | error e => exact Or.inl ⟨e, rfl⟩
    | ok toks =>
      cases hsf : source_file name { tokens := toks, pos := 0 } with
      | error e =>
        refine Or.inl ⟨e, ?_⟩
        simp only [add_source_file]
        rw [hsf]
      | ok p =>
        refine Or.inr ⟨.sourceFileNode p.1, ?_⟩
        simp only [add_source_file]
        rw [hsf]
  · cases lexedDat with
    | error e => exact Or.inl ⟨e, rfl⟩
    | ok toks =>
      cases hdf : data_file name { tokens := toks, pos := 0 } with
      | error e =>
        refine Or.inl ⟨e, ?_⟩
        simp only [add_data_file]
        rw [hdf]
      | ok p =>
        refine Or.inr ⟨.dataFileNode p.1, ?_⟩
        simp only [add_data_file]
        rw [hdf]
  · cases lexedSrc with
    | error e => exact Or.inl ⟨e, rfl⟩
    | ok stoks =>
      cases lexedDat with
      | error e => exact Or.inl ⟨e, rfl⟩
      | ok dtoks =>
        cases hsf : source_file name { tokens := stoks, pos := 0 } with
        | error e =>
          refine Or.inl ⟨e, ?_⟩
          simp only [add_module]
          rw [hsf]
        | ok p =>
          cases hdf : data_file name { tokens := dtoks, pos := 0 } with
          | error e =>
            refine Or.inl ⟨e, ?_⟩
            simp only [add_module]
            rw [hsf, hdf]
          | ok q =>
            refine Or.inr ⟨.moduleNode { name := name, source_file := p.1,
                                         data_file := q.1 }, ?_⟩
            simp only [add_module]
            rw [hsf, hdf]

/-- Claim C9: parsing terminates on every finite token sequence ending in the
end-of-stream sentinel: the source-file and data-file parses, run with fuel
one more than the token count on every loop (a budget linear in the token
count, sufficient because each loop iteration either consumes at least one
token or ends the loop), never report fuel exhaustion — they return a node or
raise an error. -/
theorem claim_C9_terminates :
    ∀ (name : String) (ts : List Token) (t : Token),
      ts.getLast? = some t → t.token_type = .END_OF_FILE →
      source_file name { tokens := ts, pos := 0 } ≠ .error .outOfFuel ∧
      data_file name { tokens := ts, pos := 0 } ≠ .error .outOfFuel := by
  intro name ts t _ _
  exact ⟨nofuel_source_file name _, nofuel_data_file name _⟩

/-- Witness for C9 at the one-token stream holding only the sentinel. -/
theorem claim_C9_witness :
    source_file "w" { tokens := [kw .END_OF_FILE 1 1], pos := 0 } ≠
        .error .outOfFuel ∧
      data_file "w" { tokens := [kw .END_OF_FILE 1 1], pos := 0 } ≠
        .error .outOfFuel :=
  claim_C9_terminates "w" [kw .END_OF_FILE 1 1] (kw .END_OF_FILE 1 1) rfl rfl

/-- Claim C10: under the precondition that the token sequence is non-empty
and its last element is its only end-of-stream token, a source-file or
data-file parse never reads an attribute of a missing (`None`) current token:
the embedded `AttributeError` outcome is unreachable, so every token access
is in bounds. -/
theorem claim_C10_no_none_access :
    ∀ (name : String) (ts : List Token),
      EOFLast ts →
      source_file name { tokens := ts, pos := 0 } ≠ .error .noneTypeError ∧
      data_file name { tokens := ts, pos := 0 } ≠ .error .noneTypeError := by
  intro name ts hE
  have hp : 0 < ts.length := List.length_pos.mpr hE.1
  constructor
  · intro h
    obtain ⟨l, c, m, hpe⟩ := source_file_err_isPE name { tokens := ts, pos := 0 }
      hE hp _ h
    exact PErr.noConfusion hpe
  · intro h
    obtain ⟨l, c, m, hpe⟩ := data_file_err_isPE name { tokens := ts, pos := 0 }
      hE hp _ h
    exact PErr.noConfusion hpe

/-- Witness for C10 at the one-token stream holding only the sentinel. -/
theorem claim_C10_witness :
    source_file "w" { tokens := [kw .END_OF_FILE 1 1], pos := 0 } ≠
        .error .noneTypeError ∧
      data_file "w" { tokens := [kw .END_OF_FILE 1 1], pos := 0 } ≠
        .error .noneTypeError :=
  claim_C10_no_none_access "w" [kw .END_OF_FILE 1 1]
    ⟨by decide, by decide⟩
